import Mathlib

/-!
Verification of the Driver-Monitoring-System core against its specification.

The definitions below are shallow embeddings of the Python source:
  * `backend/app/utils/file_parser.py`   — clip-name parsing
  * `backend/app/services/video_processor.py` — debouncer, scorer, trip assembly
  * `backend/app/eval/matching.py`       — temporal IoU and greedy matching
  * `backend/app/eval/metrics.py`        — metric aggregation and threshold sweep

Python floats are modelled as rationals (ℚ); machine integers as ℤ.  Fields
that the source stores in floats but that only ever hold integral values
(`active_ms`, `start_ms`, `last_emit_ms`) are modelled as ℤ, which is exact
for the magnitudes involved.  Python `round(x, d)` rounds half to even; it is
modelled by `roundTo` below.
-/

/- Batteries marks the rational-number operations `@[irreducible]`, which
blocks `decide`/`rfl` evaluation of concrete programs over ℚ.  Restore the
default transparency locally; this changes no definition and no proof term,
only elaborator unfolding. -/
attribute [local semireducible] Rat.add Rat.mul Rat.inv Rat.sub Rat.ofScientific

/-- Round a rational to the nearest integer, halves to the even neighbour
(the behaviour of Python's `round`). -/
def roundHalfEven (x : ℚ) : ℤ :=
  let f : ℤ := ⌊x⌋
  let r : ℚ := x - f
  if r < 1/2 then f
  else if 1/2 < r then f + 1
  else if 2 ∣ f then f else f + 1

/-- Python `round(x, d)` on a rational. -/
def roundTo (d : ℕ) (x : ℚ) : ℚ :=
  (roundHalfEven (x * 10 ^ d) : ℚ) / 10 ^ d

theorem roundHalfEven_nonneg {x : ℚ} (hx : 0 ≤ x) : 0 ≤ roundHalfEven x := by
  unfold roundHalfEven
  have hf : (0:ℤ) ≤ ⌊x⌋ := Int.floor_nonneg.mpr hx
  dsimp only
  split
  · exact hf
  · split
    · omega
    · split <;> omega

theorem roundHalfEven_le {x : ℚ} {N : ℤ} (hx : x ≤ (N : ℚ)) : roundHalfEven x ≤ N := by
  unfold roundHalfEven
  have hfx : (⌊x⌋ : ℚ) ≤ x := Int.floor_le x
  have hfN : ⌊x⌋ ≤ N := Int.floor_le_floor (α := ℚ) hx |>.trans_eq (Int.floor_intCast N)
  dsimp only
  split
  · exact hfN
  · -- in the remaining branches the fractional part is ≥ 1/2, so ⌊x⌋ < x ≤ N
    rename_i h1
    have hr : (1:ℚ)/2 ≤ x - ⌊x⌋ := le_of_not_lt h1
    have hlt : (⌊x⌋ : ℚ) < (N : ℚ) := by linarith
    have hltZ : ⌊x⌋ < N := by exact_mod_cast hlt
    split
    · omega
    · split <;> omega

theorem roundTo_nonneg {d : ℕ} {x : ℚ} (hx : 0 ≤ x) : 0 ≤ roundTo d x := by
  unfold roundTo
  have h1 : (0:ℚ) ≤ (roundHalfEven (x * 10 ^ d) : ℚ) := by
    exact_mod_cast roundHalfEven_nonneg (by positivity)
  positivity

theorem roundTo_le {d : ℕ} {x : ℚ} {N : ℤ} (hx : x ≤ (N : ℚ)) :
    roundTo d x ≤ (N : ℚ) := by
  unfold roundTo
  have h1 : roundHalfEven (x * 10 ^ d) ≤ N * 10 ^ d := by
    apply roundHalfEven_le
    push_cast
    have : (0:ℚ) < 10 ^ d := by positivity
    nlinarith
  have h2 : (roundHalfEven (x * 10 ^ d) : ℚ) ≤ (N : ℚ) * 10 ^ d := by
    exact_mod_cast h1
  have hpow : (0:ℚ) < 10 ^ d := by positivity
  rw [div_le_iff₀ hpow]
  exact h2

/-! ## Clip name parser (`backend/app/utils/file_parser.py`) -/

/-- Start code points of the 66 runs of Unicode decimal digits (general
category `Nd`).  Each run holds the digits 0-9 at ten consecutive code
points.  Python's `str`-pattern `\d` matches exactly these characters, and
`int()` reads their decimal values.  Table generated from the Unicode
database CPython uses. -/
def ndRunStarts : List ℕ :=
  [48, 1632, 1776, 1984, 2406, 2534, 2662, 2790, 2918, 3046, 3174, 3302,
   3430, 3558, 3664, 3792, 3872, 4160, 4240, 6112, 6160, 6470, 6608, 6784,
   6800, 6992, 7088, 7232, 7248, 42528, 43216, 43264, 43472, 43504, 43600,
   44016, 65296, 66720, 68912, 69734, 69872, 69942, 70096, 70384, 70736,
   70864, 71248, 71360, 71472, 71904, 72016, 72784, 73040, 73120, 92768,
   92864, 93008, 120782, 120792, 120802, 120812, 120822, 123200, 123632,
   125264, 130032]

/-- The character class `\d` of a Python `str` pattern: any Unicode decimal
digit (category `Nd`). -/
def isPyDecimalDigit (c : Char) : Bool :=
  ndRunStarts.any fun s => s ≤ c.toNat && c.toNat ≤ s + 9

/-- Decimal value of a Unicode decimal digit, as `int()` reads it; `none`
for characters outside category `Nd`. -/
def decimalDigitVal (c : Char) : Option ℕ :=
  (ndRunStarts.find? fun s => s ≤ c.toNat && c.toNat ≤ s + 9).map
    fun s => c.toNat - s

/-- Code-point ranges (inclusive) accepted by `str.isdigit` beyond category
`Nd`: the characters with `Numeric_Type=Digit`, such as superscripts and
circled digits.  `int()` raises `ValueError` on all of them.  Table
generated from the Unicode database CPython uses. -/
def isdigitExtraRanges : List (ℕ × ℕ) :=
  [(178, 179), (185, 185), (4969, 4977), (6618, 6618), (8304, 8304),
   (8308, 8313), (8320, 8329), (9312, 9320), (9332, 9340), (9352, 9360),
   (9450, 9450), (9461, 9469), (9471, 9471), (10102, 10110),
   (10112, 10120), (10122, 10130), (68160, 68163), (69216, 69224),
   (69714, 69722), (127232, 127242)]

/-- Python's `str.isdigit`, per character: a decimal digit or one of the
extra digit-property characters. -/
def pyIsDigitChar (c : Char) : Bool :=
  isPyDecimalDigit c ||
    isdigitExtraRanges.any fun p => p.1 ≤ c.toNat && c.toNat ≤ p.2

/-- The character class `[A-Za-z0-9]` under `re.IGNORECASE`.  CPython's
case folding admits exactly four characters beyond ASCII: İ (U+0130) and
ı (U+0131), whose case mappings are ASCII `i`/`I`, ſ (U+017F), which folds
to `s`, and the Kelvin sign K (U+212A), which folds to `k` (checked against
CPython over the whole code-point range). -/
def reAlnumIC (c : Char) : Bool :=
  ('A' ≤ c && c ≤ 'Z') || ('a' ≤ c && c ≤ 'z') || ('0' ≤ c && c ≤ '9') ||
    c.toNat == 0x130 || c.toNat == 0x131 || c.toNat == 0x17F ||
    c.toNat == 0x212A

/-- Case-insensitive character equality, as used for the literal parts of
the pattern under `re.IGNORECASE`.  The literal characters of `_rear.mp4`
have no case variants beyond ASCII (the only characters whose Unicode case
folding reaches ASCII fold to `i`, `s` and `k`, none of which occur in
`_rear.mp4`), so ASCII lower-casing is exact here. -/
def ciCharEq (a b : Char) : Bool := a.toLower == b.toLower

/-- Case-insensitive equality of character lists. -/
def ciEq (a b : List Char) : Bool :=
  a.length == b.length && (a.zip b).all fun p => ciCharEq p.1 p.2

/-- Recognise the tail of `NAME_PATTERN` after `\d{6}_\d{3}_\d{3}_`:
a nonempty `[A-Za-z0-9]+` run (case-insensitive, so with the four extra
characters of `reAlnumIC`), then an optional `_rear`, then `.mp4`, then
the end of the string (a single trailing newline is accepted because `$`
matches before it).  Returns the alphanumeric run and the rear flag.
The run is forced to be maximal since `_` and `.` are not in the class. -/
def matchAlnumTail (cs : List Char) : Option (List Char × Bool) :=
  let run := cs.takeWhile reAlnumIC
  let rest := cs.drop run.length
  if run.isEmpty then none
  else if ciEq rest ".mp4".data || ciEq rest ".mp4\n".data then some (run, false)
  else if ciEq rest "_rear.mp4".data || ciEq rest "_rear.mp4\n".data then some (run, true)
  else none

/-- Matcher for
`^(?P<ts>\d{6})_(?P<seq>\d{3}_\d{3}_[A-Za-z0-9]+)(?P<rear>_rear)?\.mp4$`
with `re.IGNORECASE` (the source's `NAME_PATTERN.match`).  On success returns
the `ts` group, the `seq` group and whether `rear` matched. -/
def clipNameMatch (cs : List Char) : Option (List Char × List Char × Bool) :=
  let ts := cs.take 6
  if ts.length == 6 && ts.all isPyDecimalDigit then
    match cs.drop 6 with
    | '_' :: rest1 =>
      let d1 := rest1.take 3
      if d1.length == 3 && d1.all isPyDecimalDigit then
        match rest1.drop 3 with
        | '_' :: rest2 =>
          let d2 := rest2.take 3
          if d2.length == 3 && d2.all isPyDecimalDigit then
            match rest2.drop 3 with
            | '_' :: rest3 =>
              match matchAlnumTail rest3 with
              | some (run, rear) =>
                some (ts, d1 ++ '_' :: d2 ++ '_' :: run, rear)
              | none => none
            | _ => none
          else none
        | _ => none
      else none
    | _ => none
  else none

structure ClipFile where
  original_name : String
  timestamp : String
  sequence : String
  stream_hint : String
deriving Repr, DecidableEq

/-- Embeds `ClipFile.seconds_of_day`: if the timestamp is six `str.isdigit`
characters, read it as `HHMMSS` through `int()` on the three two-character
slices; `int()` accepts decimal (`Nd`) digits but raises `ValueError` on the
remaining `isdigit` characters, and that error path is modelled as `none`.
Otherwise the result is 0. -/
def ClipFile.seconds_of_day (c : ClipFile) : Option ℤ :=
  let t := c.timestamp.data
  if t.length == 6 && t.all pyIsDigitChar then
    match t with
    | [h1, h2, m1, m2, s1, s2] =>
      match decimalDigitVal h1, decimalDigitVal h2, decimalDigitVal m1,
          decimalDigitVal m2, decimalDigitVal s1, decimalDigitVal s2 with
      | some a1, some a2, some b1, some b2, some c1, some c2 =>
        some (((a1 : ℤ) * 10 + (a2 : ℤ)) * 3600 +
          ((b1 : ℤ) * 10 + (b2 : ℤ)) * 60 + ((c1 : ℤ) * 10 + (c2 : ℤ)))
      | _, _, _, _, _, _ => none
    | _ => some 0
  else some 0

/-- Embeds `filename.rsplit(".", 1)[0]`: everything before the last dot, or the whole
string when there is no dot. -/
def stemOf (cs : List Char) : List Char :=
  if cs.contains '.' then (((cs.reverse.dropWhile (· ≠ '.')).drop 1).reverse)
  else cs

/-- Embeds `parse_clip_name` from `file_parser.py`. -/
def parse_clip_name (filename : String) : ClipFile :=
  match clipNameMatch filename.data with
  | none =>
    { original_name := filename
      timestamp := ⟨(stemOf filename.data).take 6⟩
      sequence := "unknown"
      stream_hint := "front" }
  | some (ts, seq, rear) =>
    { original_name := filename
      timestamp := ⟨ts⟩
      sequence := ⟨seq⟩
      stream_hint := if rear then "rear" else "front" }

/-- The matcher accepts non-ASCII decimal digits in the `ts` and `seq`
groups, as Python's `\d` does: the Arabic-numeral filename
`"٢٣٥٩٥٩_001_001_a.mp4"` matches `NAME_PATTERN`. -/
theorem clipNameMatch_unicode_digits :
    clipNameMatch "٢٣٥٩٥٩_001_001_a.mp4".data =
      some ("٢٣٥٩٥٩".data, "001_001_a".data, false) := by decide

/-- C3 counterexample: the filename `"235959.mp4"` does not match
`NAME_PATTERN` (it has no sequence group), yet `parse_clip_name` yields
`seconds_of_day = 86399`, not `0`: the fallback branch copies the first six
stem characters into `timestamp`, and `seconds_of_day` parses them as
`HHMMSS` whenever they are six digits.  The same happens with non-ASCII
decimal digits: the Arabic numerals of `"٢٣٥٩٥٩.mp4"` satisfy
`str.isdigit` and are read by `int()`, so that filename also yields
86399. -/
theorem parse_clip_name_nonmatch_nonzero_seconds :
    (clipNameMatch "235959.mp4".data = none ∧
      (parse_clip_name "235959.mp4").seconds_of_day = some 86399 ∧
      (parse_clip_name "235959.mp4").stream_hint = "front") ∧
    (clipNameMatch "٢٣٥٩٥٩.mp4".data = none ∧
      (parse_clip_name "٢٣٥٩٥٩.mp4").seconds_of_day = some 86399) := by
  refine ⟨⟨by decide, by decide, by decide⟩, by decide, by decide⟩

/-- C3 (amended): for every filename that does not match `NAME_PATTERN`,
`parse_clip_name` yields `stream_hint = front` and `sequence = unknown`;
`seconds_of_day` is `0` unless the first six characters of the stem all
satisfy `str.isdigit` (in which case they are read as `HHMMSS` when they
are decimal digits, and `int()` raises `ValueError` otherwise). -/
theorem parse_clip_name_nonmatch (filename : String)
    (hmatch : clipNameMatch filename.data = none) :
    (parse_clip_name filename).stream_hint = "front" ∧
      (parse_clip_name filename).sequence = "unknown" ∧
      ((((stemOf filename.data).take 6).length == 6 &&
          ((stemOf filename.data).take 6).all pyIsDigitChar) = false →
        (parse_clip_name filename).seconds_of_day = some 0) := by
  unfold parse_clip_name
  rw [hmatch]
  refine ⟨rfl, rfl, fun hdig => ?_⟩
  unfold ClipFile.seconds_of_day
  simp only
  rw [hdig]
  simp

/-- Witness for C3's amended theorem at the concrete input `"hello.mp4"`. -/
theorem parse_clip_name_nonmatch_witness :
    (parse_clip_name "hello.mp4").stream_hint = "front" ∧
      (parse_clip_name "hello.mp4").seconds_of_day = some 0 :=
  ⟨(parse_clip_name_nonmatch "hello.mp4" (by decide)).1,
    (parse_clip_name_nonmatch "hello.mp4" (by decide)).2.2 (by decide)⟩

/-! ## Debouncer (`backend/app/services/video_processor.py`) -/

structure DebounceRule where
  min_duration_ms : ℤ
  cooldown_ms : ℤ
deriving Repr, DecidableEq

/-- Embeds `EVENT_RULES` from `video_processor.py` (a `dict` in the source; insertion
order preserved). -/
def EVENT_RULES : List (String × DebounceRule) :=
  [("driver_fatigue", ⟨15000, 20000⟩),
   ("microsleep", ⟨1500, 8000⟩),
   ("distracted_driving", ⟨2000, 7000⟩),
   ("lane_deviation", ⟨700, 4000⟩),
   ("mobile_phone_use", ⟨1000, 6000⟩),
   ("seatbelt_not_worn", ⟨3000, 20000⟩),
   ("obstruction_ahead", ⟨800, 4000⟩),
   ("tailgating", ⟨1500, 5000⟩)]

/-- Per-type debouncer state.  In the source all four fields are floats, but
`active_ms`, `last_emit_ms` and `start_ms` only ever hold integral values
(sums of integers, `-1e9`, or `float(now_ms)`), so they are modelled as ℤ. -/
structure DebounceState where
  active_ms : ℤ
  last_emit_ms : ℤ
  ema : ℚ
  start_ms : ℤ
deriving Repr, DecidableEq

/-- Embeds `DebounceEngine.__init__`: each type starts with
`{"active_ms": 0.0, "last_emit_ms": -1e9, "ema": 0.0, "start_ms": 0.0}`. -/
def initDebounceState : DebounceState :=
  { active_ms := 0, last_emit_ms := -(10 ^ 9), ema := 0, start_ms := 0 }

/-- An event as emitted by `DebounceEngine.update` (the `ctx` fields are not
modelled; they are copied verbatim from the caller). -/
structure EmittedEvent where
  type : String
  ts_ms_start : ℤ
  ts_ms_end : ℤ
  severity : ℚ
deriving Repr, DecidableEq

/-- The activation/decay step of `DebounceEngine.update` (lines 62-69). -/
def stepSignal (st : DebounceState) (active : Bool) (conf : ℚ) (now_ms delta_ms : ℤ) :
    DebounceState :=
  if active then
    { st with
      start_ms := if st.active_ms ≤ 0 then now_ms - delta_ms else st.start_ms
      active_ms := st.active_ms + delta_ms
      ema := if 0 < st.ema then 0.75 * st.ema + 0.25 * conf else conf }
  else
    { st with
      active_ms := max 0 (st.active_ms - delta_ms)
      ema := 0.85 * st.ema }

/-- The emission gate of `DebounceEngine.update` (lines 71-75), evaluated on
the post-step state `st1`. -/
def canEmit (rule : DebounceRule) (st1 : DebounceState) (now_ms : ℤ) : Prop :=
  rule.min_duration_ms ≤ st1.active_ms ∧
    rule.cooldown_ms ≤ now_ms - st1.last_emit_ms ∧
    (0.45 : ℚ) ≤ st1.ema

instance (rule : DebounceRule) (st1 : DebounceState) (now_ms : ℤ) :
    Decidable (canEmit rule st1 now_ms) :=
  inferInstanceAs (Decidable (_ ∧ _ ∧ _))

/-- Embeds `DebounceEngine.update` for one event type, given its rule (lines 50-86).
Returns the updated state together with the emitted event, if any.  On
emission only `last_emit_ms` is assigned; the emitted boundaries read
`start_ms` and `now_ms` and the severity clamps the post-step EMA. -/
def debounceUpdate (rule : DebounceRule) (ty : String) (st : DebounceState)
    (active : Bool) (conf : ℚ) (now_ms delta_ms : ℤ) :
    DebounceState × Option EmittedEvent :=
  if canEmit rule (stepSignal st active conf now_ms delta_ms) now_ms then
    ({ stepSignal st active conf now_ms delta_ms with last_emit_ms := now_ms },
      some { type := ty
             ts_ms_start := (stepSignal st active conf now_ms delta_ms).start_ms
             ts_ms_end := now_ms
             severity := min 1 (max 0 (stepSignal st active conf now_ms delta_ms).ema) })
  else
    (stepSignal st active conf now_ms delta_ms, none)

/-- One debouncer input: the per-frame arguments of `DebounceEngine.update`. -/
structure DebounceInput where
  active : Bool
  conf : ℚ
  now_ms : ℤ
  delta_ms : ℤ
deriving Repr, DecidableEq

/-- Run the debouncer over a sequence of updates, collecting emitted events. -/
def runDebounce (rule : DebounceRule) (ty : String) :
    DebounceState → List DebounceInput → DebounceState × List EmittedEvent
  | st, [] => (st, [])
  | st, u :: us =>
    let r := debounceUpdate rule ty st u.active u.conf u.now_ms u.delta_ms
    let rest := runDebounce rule ty r.1 us
    (rest.1, r.2.toList ++ rest.2)

/-- The timing hypothesis of C1, relative to a previous timestamp `p`: every
update has `delta_ms > 0` and its `now_ms` exceeds the previous update's
`now_ms` by at least its own `delta_ms`. -/
def Chained : ℤ → List DebounceInput → Prop
  | _, [] => True
  | p, u :: us => 0 < u.delta_ms ∧ p + u.delta_ms ≤ u.now_ms ∧ Chained u.now_ms us

instance Chained.instDecidable : ∀ (p : ℤ) (us : List DebounceInput), Decidable (Chained p us)
  | _, [] => isTrue trivial
  | p, u :: us =>
    have : Decidable (Chained u.now_ms us) := Chained.instDecidable u.now_ms us
    inferInstanceAs (Decidable (_ ∧ _ ∧ _))

/-- C1's hypothesis on a whole run: the first update only needs a positive
`delta_ms`; consecutive updates are `Chained`. -/
def ChainedFrom : List DebounceInput → Prop
  | [] => True
  | u :: us => 0 < u.delta_ms ∧ Chained u.now_ms us

instance ChainedFrom.instDecidable : ∀ us : List DebounceInput, Decidable (ChainedFrom us)
  | [] => isTrue trivial
  | _ :: _ => inferInstanceAs (Decidable (_ ∧ _))

/-- The invariant that makes C1 go through: `active_ms` is non-negative and,
while a bout is active, never exceeds the time elapsed since `start_ms`. -/
def DebounceInv (st : DebounceState) (p : ℤ) : Prop :=
  0 ≤ st.active_ms ∧ (0 < st.active_ms → st.active_ms ≤ p - st.start_ms)

theorem stepSignal_inv {st : DebounceState} {p : ℤ} (h : DebounceInv st p)
    (active : Bool) (conf : ℚ) {now_ms delta_ms : ℤ}
    (hd : 0 < delta_ms) (hn : p + delta_ms ≤ now_ms) :
    DebounceInv (stepSignal st active conf now_ms delta_ms) now_ms := by
  obtain ⟨h0, h1⟩ := h
  cases active with
  | false =>
    refine ⟨le_max_left 0 _, fun hpos => ?_⟩
    show max 0 (st.active_ms - delta_ms) ≤ now_ms -
      (stepSignal st false conf now_ms delta_ms).start_ms
    have hpos' : 0 < max 0 (st.active_ms - delta_ms) := hpos
    have hmax : max 0 (st.active_ms - delta_ms) = st.active_ms - delta_ms := by
      rcases le_total 0 (st.active_ms - delta_ms) with hc | hc
      · exact max_eq_right hc
      · rw [max_eq_left hc] at hpos'; omega
    have hA : 0 < st.active_ms := by omega
    have hb := h1 hA
    show max 0 (st.active_ms - delta_ms) ≤ now_ms - st.start_ms
    omega
  | true =>
    by_cases hz : st.active_ms ≤ 0
    · refine ⟨?_, fun _ => ?_⟩
      · show (0:ℤ) ≤ st.active_ms + delta_ms
        omega
      · show st.active_ms + delta_ms ≤ now_ms -
          (if st.active_ms ≤ 0 then now_ms - delta_ms else st.start_ms)
        rw [if_pos hz]
        omega
    · push_neg at hz
      have hb := h1 hz
      refine ⟨?_, fun _ => ?_⟩
      · show (0:ℤ) ≤ st.active_ms + delta_ms
        omega
      · show st.active_ms + delta_ms ≤ now_ms -
          (if st.active_ms ≤ 0 then now_ms - delta_ms else st.start_ms)
        rw [if_neg (not_le.mpr hz)]
        omega

theorem initDebounceState_inv (p : ℤ) : DebounceInv initDebounceState p := by
  constructor
  · simp [initDebounceState]
  · intro h; simp [initDebounceState] at h

theorem debounceUpdate_inv {st : DebounceState} {p : ℤ} (h : DebounceInv st p)
    (rule : DebounceRule) (ty : String) (active : Bool) (conf : ℚ)
    {now_ms delta_ms : ℤ} (hd : 0 < delta_ms) (hn : p + delta_ms ≤ now_ms) :
    DebounceInv (debounceUpdate rule ty st active conf now_ms delta_ms).1 now_ms := by
  have h1 := stepSignal_inv h active conf hd hn
  unfold debounceUpdate
  by_cases hcan : canEmit rule (stepSignal st active conf now_ms delta_ms) now_ms
  · rw [if_pos hcan]
    exact ⟨h1.1, h1.2⟩
  · rw [if_neg hcan]
    exact h1

/-- Generalised form of C1: from any state satisfying the invariant, every
event emitted along a `Chained` run satisfies the minimum-duration bound. -/
theorem runDebounce_min_duration (rule : DebounceRule) (ty : String)
    (hmin : 0 < rule.min_duration_ms) :
    ∀ (us : List DebounceInput) (st : DebounceState) (p : ℤ),
      DebounceInv st p → Chained p us →
      ∀ ev ∈ (runDebounce rule ty st us).2,
        rule.min_duration_ms ≤ ev.ts_ms_end - ev.ts_ms_start := by
  intro us
  induction us with
  | nil => intro st p _ _ ev hev; simp [runDebounce] at hev
  | cons u rest ih =>
    intro st p hinv hch ev hev
    obtain ⟨hd, hn, hch'⟩ := hch
    have hinv1 : DebounceInv (stepSignal st u.active u.conf u.now_ms u.delta_ms) u.now_ms :=
      stepSignal_inv hinv u.active u.conf hd hn
    simp only [runDebounce, List.mem_append] at hev
    rcases hev with hev | hev
    · -- the head update emitted `ev`
      unfold debounceUpdate at hev
      by_cases hcan : canEmit rule (stepSignal st u.active u.conf u.now_ms u.delta_ms) u.now_ms
      · rw [if_pos hcan] at hev
        simp only [Option.toList_some, List.mem_singleton] at hev
        subst hev
        have hm : rule.min_duration_ms ≤
            (stepSignal st u.active u.conf u.now_ms u.delta_ms).active_ms := hcan.1
        have hpos : 0 < (stepSignal st u.active u.conf u.now_ms u.delta_ms).active_ms :=
          lt_of_lt_of_le hmin hm
        have hb := hinv1.2 hpos
        simp only
        omega
      · rw [if_neg hcan] at hev
        simp at hev
    · -- `ev` was emitted later in the run
      exact ih _ u.now_ms (debounceUpdate_inv hinv rule ty u.active u.conf hd hn) hch' ev hev

/-- Helper: a successful association-list lookup yields a member value. -/
theorem lookup_mem_values {α β : Type} [BEq α] [LawfulBEq α] :
    ∀ (l : List (α × β)) (k : α) (v : β), l.lookup k = some v → v ∈ l.map Prod.snd := by
  intro l
  induction l with
  | nil => intro k v h; simp [List.lookup] at h
  | cons p rest ih =>
    intro k v h
    rw [List.lookup] at h
    cases hk : k == p.1 with
    | true =>
      rw [hk] at h
      simp only [List.map_cons, List.mem_cons]
      left
      exact (Option.some.injEq _ _ ▸ h).symm
    | false =>
      rw [hk] at h
      simp only [List.map_cons, List.mem_cons]
      exact Or.inr (ih k v h)

theorem EVENT_RULES_bounds :
    ∀ r ∈ EVENT_RULES.map Prod.snd,
      0 < r.min_duration_ms ∧ 0 < r.cooldown_ms ∧ r.cooldown_ms ≤ 10 ^ 9 := by
  decide

/-- C1: for every event type and every sequence of debouncer updates whose
`now_ms` increases by at least each update's positive `delta_ms`, every
emitted event satisfies `ts_ms_end - ts_ms_start ≥ min_duration_ms` for that
type (15000 ms for driver_fatigue, 2000 ms for distracted_driving, 700 ms for
lane_deviation, and so on per `EVENT_RULES`). -/
theorem debounce_emitted_min_duration (ty : String) (rule : DebounceRule)
    (hrule : EVENT_RULES.lookup ty = some rule)
    (us : List DebounceInput) (hch : ChainedFrom us) :
    ∀ ev ∈ (runDebounce rule ty initDebounceState us).2,
      rule.min_duration_ms ≤ ev.ts_ms_end - ev.ts_ms_start := by
  have hmin : 0 < rule.min_duration_ms :=
    (EVENT_RULES_bounds rule (lookup_mem_values EVENT_RULES ty rule hrule)).1
  cases us with
  | nil => intro ev hev; simp [runDebounce] at hev
  | cons u rest =>
    obtain ⟨hd, hch'⟩ := hch
    exact runDebounce_min_duration rule ty hmin (u :: rest) initDebounceState
      (u.now_ms - u.delta_ms) (initDebounceState_inv _) ⟨hd, by omega, hch'⟩

/-- A concrete run used to witness C1: seven 100 ms active lane updates at
full confidence; the seventh emits one event spanning 0-700 ms. -/
def c1DemoUpdates : List DebounceInput :=
  [⟨true, 1, 100, 100⟩, ⟨true, 1, 200, 100⟩, ⟨true, 1, 300, 100⟩,
   ⟨true, 1, 400, 100⟩, ⟨true, 1, 500, 100⟩, ⟨true, 1, 600, 100⟩,
   ⟨true, 1, 700, 100⟩]

/-- Witness for C1: the event emitted by the concrete run `c1DemoUpdates`
satisfies the lane-deviation minimum duration. -/
theorem debounce_emitted_min_duration_witness :
    (700 : ℤ) ≤ (⟨"lane_deviation", 0, 700, 1⟩ : EmittedEvent).ts_ms_end -
      (⟨"lane_deviation", 0, 700, 1⟩ : EmittedEvent).ts_ms_start :=
  debounce_emitted_min_duration "lane_deviation" ⟨700, 4000⟩ (by decide)
    c1DemoUpdates (by decide) ⟨"lane_deviation", 0, 700, 1⟩ (by decide)

/-- C5: whenever `DebounceEngine.update` emits an event, the post-update state
keeps exactly the `active_ms`, `ema` and `start_ms` produced by that update's
activation/decay step; only `last_emit_ms` changes, and it is set to
`now_ms`.  State is not reset on emission. -/
theorem debounce_emit_state_unchanged (rule : DebounceRule) (ty : String)
    (st : DebounceState) (active : Bool) (conf : ℚ) (now_ms delta_ms : ℤ)
    (st' : DebounceState) (ev : EmittedEvent)
    (h : debounceUpdate rule ty st active conf now_ms delta_ms = (st', some ev)) :
    st'.active_ms = (stepSignal st active conf now_ms delta_ms).active_ms ∧
      st'.ema = (stepSignal st active conf now_ms delta_ms).ema ∧
      st'.start_ms = (stepSignal st active conf now_ms delta_ms).start_ms ∧
      st'.last_emit_ms = now_ms := by
  unfold debounceUpdate at h
  by_cases hcan : canEmit rule (stepSignal st active conf now_ms delta_ms) now_ms
  · rw [if_pos hcan] at h
    have hst : st' = { stepSignal st active conf now_ms delta_ms with last_emit_ms := now_ms } :=
      (Prod.mk.injEq _ _ _ _ ▸ h).1.symm
    rw [hst]
    exact ⟨rfl, rfl, rfl, rfl⟩
  · rw [if_neg hcan] at h
    exact absurd (Prod.mk.injEq _ _ _ _ ▸ h).2.symm (by simp)

/-- Witness for C5 at a concrete emitting update: from an active state with
`active_ms = 2000`, a distracted-driving update at `now_ms = 2100` emits and
only `last_emit_ms` changes. -/
theorem debounce_emit_state_unchanged_witness :
    let st : DebounceState := ⟨2000, -(10 ^ 9), 9/10, 0⟩
    let st' : DebounceState := ⟨2100, 2100, 9/10, 0⟩
    st'.active_ms = (stepSignal st true (9/10) 2100 100).active_ms ∧
      st'.ema = (stepSignal st true (9/10) 2100 100).ema ∧
      st'.start_ms = (stepSignal st true (9/10) 2100 100).start_ms ∧
      st'.last_emit_ms = 2100 :=
  debounce_emit_state_unchanged ⟨2000, 7000⟩ "distracted_driving"
    ⟨2000, -(10 ^ 9), 9/10, 0⟩ true (9/10) 2100 100
    ⟨2100, 2100, 9/10, 0⟩ ⟨"distracted_driving", 0, 2100, 9/10⟩ (by decide)

/-- Helper for C9: a run that emits nothing never writes `last_emit_ms`. -/
theorem runDebounce_no_emit_last_emit (rule : DebounceRule) (ty : String) :
    ∀ (us : List DebounceInput) (st : DebounceState),
      (runDebounce rule ty st us).2 = [] →
      (runDebounce rule ty st us).1.last_emit_ms = st.last_emit_ms := by
  intro us
  induction us with
  | nil => intro st _; rfl
  | cons u rest ih =>
    intro st hemp
    simp only [runDebounce, List.append_eq_nil] at hemp
    obtain ⟨hhead, hrest⟩ := hemp
    have hnone : (debounceUpdate rule ty st u.active u.conf u.now_ms u.delta_ms).2 = none := by
      cases hopt : (debounceUpdate rule ty st u.active u.conf u.now_ms u.delta_ms).2 with
      | none => rfl
      | some ev => rw [hopt] at hhead; simp at hhead
    have hfst : (debounceUpdate rule ty st u.active u.conf u.now_ms u.delta_ms).1.last_emit_ms =
        st.last_emit_ms := by
      unfold debounceUpdate at hnone ⊢
      by_cases hcan : canEmit rule (stepSignal st u.active u.conf u.now_ms u.delta_ms) u.now_ms
      · rw [if_pos hcan] at hnone; simp at hnone
      · rw [if_neg hcan]
        show (stepSignal st u.active u.conf u.now_ms u.delta_ms).last_emit_ms = st.last_emit_ms
        unfold stepSignal
        cases u.active <;> rfl
    calc (runDebounce rule ty st (u :: rest)).1.last_emit_ms
        = (runDebounce rule ty (debounceUpdate rule ty st u.active u.conf u.now_ms u.delta_ms).1
            rest).1.last_emit_ms := rfl
      _ = (debounceUpdate rule ty st u.active u.conf u.now_ms u.delta_ms).1.last_emit_ms :=
            ih _ hrest
      _ = st.last_emit_ms := hfst

/-- C9: starting from the initial state (`last_emit_ms = -1e9`), as long as
no event of the type has been emitted, `last_emit_ms` is still `-1e9`, so for
any `now_ms ≥ 0` the cooldown conjunct of the gate holds and emission is
decided solely by `active_ms ≥ min_duration_ms` and `ema ≥ 0.45`. -/
theorem debounce_first_emission_cooldown_free (ty : String) (rule : DebounceRule)
    (hrule : EVENT_RULES.lookup ty = some rule)
    (us : List DebounceInput)
    (hnoemit : (runDebounce rule ty initDebounceState us).2 = [])
    (now_ms : ℤ) (hnow : 0 ≤ now_ms) :
    (runDebounce rule ty initDebounceState us).1.last_emit_ms = -(10 ^ 9) ∧
      rule.cooldown_ms ≤ now_ms - (runDebounce rule ty initDebounceState us).1.last_emit_ms ∧
      ∀ (active : Bool) (conf : ℚ) (delta_ms : ℤ),
        (debounceUpdate rule ty (runDebounce rule ty initDebounceState us).1
            active conf now_ms delta_ms).2.isSome ↔
          (rule.min_duration_ms ≤
              (stepSignal (runDebounce rule ty initDebounceState us).1
                active conf now_ms delta_ms).active_ms ∧
            (0.45 : ℚ) ≤
              (stepSignal (runDebounce rule ty initDebounceState us).1
                active conf now_ms delta_ms).ema) := by
  have hcd : rule.cooldown_ms ≤ 10 ^ 9 :=
    (EVENT_RULES_bounds rule (lookup_mem_values EVENT_RULES ty rule hrule)).2.2
  have hlast : (runDebounce rule ty initDebounceState us).1.last_emit_ms = -(10 ^ 9) :=
    runDebounce_no_emit_last_emit rule ty us initDebounceState hnoemit
  refine ⟨hlast, by rw [hlast]; omega, fun active conf delta_ms => ?_⟩
  have hlast1 : (stepSignal (runDebounce rule ty initDebounceState us).1
      active conf now_ms delta_ms).last_emit_ms = -(10 ^ 9) := by
    rw [← hlast]
    unfold stepSignal
    cases active <;> rfl
  constructor
  · intro hsome
    unfold debounceUpdate at hsome
    by_cases hcan : canEmit rule (stepSignal (runDebounce rule ty initDebounceState us).1
        active conf now_ms delta_ms) now_ms
    · exact ⟨hcan.1, hcan.2.2⟩
    · rw [if_neg hcan] at hsome; simp at hsome
  · intro ⟨hmin, hema⟩
    have hcan : canEmit rule (stepSignal (runDebounce rule ty initDebounceState us).1
        active conf now_ms delta_ms) now_ms := by
      refine ⟨hmin, ?_, hema⟩
      rw [hlast1]; omega
    unfold debounceUpdate
    rw [if_pos hcan]
    rfl

/-- Witness for C9 at the empty run and `now_ms = 0` for `microsleep`:
the cooldown conjunct holds and a sufficiently long active step emits. -/
theorem debounce_first_emission_cooldown_free_witness :
    (runDebounce ⟨1500, 8000⟩ "microsleep" initDebounceState []).1.last_emit_ms = -(10 ^ 9) ∧
      (8000 : ℤ) ≤ 0 - (runDebounce ⟨1500, 8000⟩ "microsleep" initDebounceState []).1.last_emit_ms :=
  ⟨(debounce_first_emission_cooldown_free "microsleep" ⟨1500, 8000⟩ (by decide) []
      (by decide) 0 (by decide)).1,
    (debounce_first_emission_cooldown_free "microsleep" ⟨1500, 8000⟩ (by decide) []
      (by decide) 0 (by decide)).2.1⟩

/-! ## Scorer (`_score_trip`, `video_processor.py` lines 167-213) -/

/-- An event as consumed by `_score_trip` (only the fields it reads). -/
structure ScoreEvent where
  type : String
  ts_ms_start : ℤ
  ts_ms_end : ℤ
  severity : ℚ
deriving Repr, DecidableEq

/-- The `weights` dict of `_score_trip`; `weights.get(type, 1.0)`. -/
def scoreWeights : List (String × ℚ) :=
  [("driver_fatigue", 2.2), ("microsleep", 3.0), ("distracted_driving", 1.9),
   ("mobile_phone_use", 2.0), ("seatbelt_not_worn", 1.6), ("lane_deviation", 1.5),
   ("tailgating", 1.8), ("obstruction_ahead", 1.4)]

def scoreWeight (ty : String) : ℚ := (scoreWeights.lookup ty).getD 1

/-- The `cat_events` category sets of `_score_trip`. -/
def fatigueTypes : List String := ["driver_fatigue", "microsleep"]
def distractionTypes : List String := ["distracted_driving", "mobile_phone_use", "seatbelt_not_worn"]
def laneTypes : List String := ["lane_deviation"]
def followingTypes : List String := ["tailgating", "obstruction_ahead"]

structure Penalties where
  fatigue : ℚ
  distraction : ℚ
  lane : ℚ
  following : ℚ
deriving Repr, DecidableEq

/-- Per-event penalty: `weight * severity * max(0.5, (end - start)/1000)`. -/
def eventPenalty (ev : ScoreEvent) : ℚ :=
  scoreWeight ev.type * ev.severity * max 0.5 (((ev.ts_ms_end - ev.ts_ms_start : ℤ) : ℚ) / 1000)

/-- One iteration of the accumulation loop of `_score_trip`: the penalty is
added to every category whose member set contains the event type. -/
def addPenalty (p : Penalties) (ev : ScoreEvent) : Penalties :=
  { fatigue := p.fatigue + (if ev.type ∈ fatigueTypes then eventPenalty ev else 0)
    distraction := p.distraction + (if ev.type ∈ distractionTypes then eventPenalty ev else 0)
    lane := p.lane + (if ev.type ∈ laneTypes then eventPenalty ev else 0)
    following := p.following + (if ev.type ∈ followingTypes then eventPenalty ev else 0) }

def tripPenalties (events : List ScoreEvent) : Penalties :=
  events.foldl addPenalty ⟨0, 0, 0, 0⟩

/-- Embeds `norm = max(1.0, duration_seconds / 3600.0)`. -/
def scoreNorm (duration_seconds : ℚ) : ℚ := max 1 (duration_seconds / 3600)

/-- The four pre-rounding sub-scores of `_score_trip` (lines 195-198). -/
def fatigue_sub (events : List ScoreEvent) (duration_seconds : ℚ) : ℚ :=
  max 0 (100 - (tripPenalties events).fatigue / scoreNorm duration_seconds)

def distraction_sub (events : List ScoreEvent) (duration_seconds : ℚ) : ℚ :=
  max 0 (100 - (tripPenalties events).distraction / scoreNorm duration_seconds)

def lane_sub (events : List ScoreEvent) (duration_seconds : ℚ) : ℚ :=
  max 0 (100 - (tripPenalties events).lane / scoreNorm duration_seconds)

def following_sub (events : List ScoreEvent) (duration_seconds : ℚ) : ℚ :=
  max 0 (100 - (tripPenalties events).following / scoreNorm duration_seconds)

structure TripScores where
  fatigue_score : ℚ
  distraction_score : ℚ
  lane_score : ℚ
  following_distance_score : ℚ
  overall_score : ℚ
deriving Repr, DecidableEq

/-- Embeds `_score_trip` (the score fields of its returned dict; the `details`
sub-dict is not modelled). -/
def score_trip (events : List ScoreEvent) (duration_seconds : ℚ) : TripScores :=
  { fatigue_score := roundTo 2 (fatigue_sub events duration_seconds)
    distraction_score := roundTo 2 (distraction_sub events duration_seconds)
    lane_score := roundTo 2 (lane_sub events duration_seconds)
    following_distance_score := roundTo 2 (following_sub events duration_seconds)
    overall_score := roundTo 2 ((fatigue_sub events duration_seconds +
      distraction_sub events duration_seconds + lane_sub events duration_seconds +
      following_sub events duration_seconds) / 4) }

theorem scoreWeight_pos (ty : String) : 0 < scoreWeight ty := by
  unfold scoreWeight
  cases hlk : scoreWeights.lookup ty with
  | none => simp [Option.getD]
  | some w =>
    have hw := lookup_mem_values scoreWeights ty w hlk
    have hall : ∀ w ∈ scoreWeights.map Prod.snd, (0:ℚ) < w := by decide
    simpa [Option.getD] using hall w hw

theorem eventPenalty_nonneg {ev : ScoreEvent} (h : 0 ≤ ev.severity) :
    0 ≤ eventPenalty ev := by
  unfold eventPenalty
  have h1 : (0:ℚ) < scoreWeight ev.type := scoreWeight_pos ev.type
  have h2 : (0:ℚ) ≤ max 0.5 (((ev.ts_ms_end - ev.ts_ms_start : ℤ) : ℚ) / 1000) :=
    le_trans (by norm_num) (le_max_left _ _)
  positivity

theorem tripPenalties_nonneg (events : List ScoreEvent)
    (h : ∀ ev ∈ events, 0 ≤ ev.severity) :
    0 ≤ (tripPenalties events).fatigue ∧ 0 ≤ (tripPenalties events).distraction ∧
      0 ≤ (tripPenalties events).lane ∧ 0 ≤ (tripPenalties events).following := by
  unfold tripPenalties
  suffices H : ∀ (p : Penalties), 0 ≤ p.fatigue → 0 ≤ p.distraction → 0 ≤ p.lane →
      0 ≤ p.following →
      0 ≤ (events.foldl addPenalty p).fatigue ∧ 0 ≤ (events.foldl addPenalty p).distraction ∧
        0 ≤ (events.foldl addPenalty p).lane ∧ 0 ≤ (events.foldl addPenalty p).following by
    exact H ⟨0, 0, 0, 0⟩ le_rfl le_rfl le_rfl le_rfl
  induction events with
  | nil => intro p h1 h2 h3 h4; exact ⟨h1, h2, h3, h4⟩
  | cons ev rest ih =>
    intro p h1 h2 h3 h4
    have hev : 0 ≤ ev.severity := h ev (List.mem_cons_self ev rest)
    have hpen : 0 ≤ eventPenalty ev := eventPenalty_nonneg hev
    have hrest : ∀ e ∈ rest, 0 ≤ e.severity := fun e he => h e (List.mem_cons_of_mem _ he)
    have := ih hrest (p := addPenalty p ev)
    apply this <;>
      · unfold addPenalty
        dsimp only
        split <;> linarith

/-- Each pre-rounding sub-score lies in `[0, 100]` once the accumulated
penalty is non-negative (the norm is always ≥ 1). -/
theorem sub_score_bounds {pen : ℚ} (hpen : 0 ≤ pen) (duration_seconds : ℚ) :
    0 ≤ max 0 (100 - pen / scoreNorm duration_seconds) ∧
      max 0 (100 - pen / scoreNorm duration_seconds) ≤ 100 := by
  have hnorm : (1:ℚ) ≤ scoreNorm duration_seconds := le_max_left _ _
  have hnormpos : (0:ℚ) < scoreNorm duration_seconds := lt_of_lt_of_le one_pos hnorm
  have hdiv : 0 ≤ pen / scoreNorm duration_seconds := div_nonneg hpen (le_of_lt hnormpos)
  exact ⟨le_max_left _ _, max_le (by norm_num) (by linarith)⟩

/-- C7: for events whose severities lie in `[0,1]` and any non-negative trip
duration, each of the four category sub-scores
`max(0, 100 - penalty_total / norm)` lies in `[0,100]`, and the reported
overall score is the arithmetic mean of the four sub-scores rounded to two
decimals. -/
theorem score_trip_bounds (events : List ScoreEvent) (duration_seconds : ℚ)
    (hsev : ∀ ev ∈ events, 0 ≤ ev.severity ∧ ev.severity ≤ 1)
    (hdur : 0 ≤ duration_seconds) :
    (0 ≤ fatigue_sub events duration_seconds ∧ fatigue_sub events duration_seconds ≤ 100) ∧
      (0 ≤ distraction_sub events duration_seconds ∧
        distraction_sub events duration_seconds ≤ 100) ∧
      (0 ≤ lane_sub events duration_seconds ∧ lane_sub events duration_seconds ≤ 100) ∧
      (0 ≤ following_sub events duration_seconds ∧
        following_sub events duration_seconds ≤ 100) ∧
      (score_trip events duration_seconds).overall_score =
        roundTo 2 ((fatigue_sub events duration_seconds +
          distraction_sub events duration_seconds + lane_sub events duration_seconds +
          following_sub events duration_seconds) / 4) := by
  have hpen := tripPenalties_nonneg events (fun ev hev => (hsev ev hev).1)
  exact ⟨sub_score_bounds hpen.1 duration_seconds,
    sub_score_bounds hpen.2.1 duration_seconds,
    sub_score_bounds hpen.2.2.1 duration_seconds,
    sub_score_bounds hpen.2.2.2 duration_seconds,
    rfl⟩

/-- Witness for C7 at a concrete trip: one 10-second distracted-driving event
at severity 0.8 over a 1-hour trip. -/
theorem score_trip_bounds_witness :
    (0 ≤ fatigue_sub [⟨"distracted_driving", 0, 10000, 0.8⟩] 3600 ∧
        fatigue_sub [⟨"distracted_driving", 0, 10000, 0.8⟩] 3600 ≤ 100) ∧
      (0 ≤ distraction_sub [⟨"distracted_driving", 0, 10000, 0.8⟩] 3600 ∧
        distraction_sub [⟨"distracted_driving", 0, 10000, 0.8⟩] 3600 ≤ 100) ∧
      (0 ≤ lane_sub [⟨"distracted_driving", 0, 10000, 0.8⟩] 3600 ∧
        lane_sub [⟨"distracted_driving", 0, 10000, 0.8⟩] 3600 ≤ 100) ∧
      (0 ≤ following_sub [⟨"distracted_driving", 0, 10000, 0.8⟩] 3600 ∧
        following_sub [⟨"distracted_driving", 0, 10000, 0.8⟩] 3600 ≤ 100) ∧
      (score_trip [⟨"distracted_driving", 0, 10000, 0.8⟩] 3600).overall_score =
        roundTo 2 ((fatigue_sub [⟨"distracted_driving", 0, 10000, 0.8⟩] 3600 +
          distraction_sub [⟨"distracted_driving", 0, 10000, 0.8⟩] 3600 +
          lane_sub [⟨"distracted_driving", 0, 10000, 0.8⟩] 3600 +
          following_sub [⟨"distracted_driving", 0, 10000, 0.8⟩] 3600) / 4) :=
  score_trip_bounds [⟨"distracted_driving", 0, 10000, 0.8⟩] 3600
    (by intro ev hev; simp at hev; rw [hev]; constructor <;> norm_num)
    (by norm_num)

/-! ## Trip assembly failure path (`process_trip`, lines 252-276) -/

/-- The `Segment` dataclass (the path is kept abstract as a string). -/
structure Segment where
  path : String
  stream : String
  start_sec : ℤ
deriving Repr, DecidableEq

/-- The trip fields that `process_trip` writes on its early paths. -/
structure TripState where
  status : String
  error : Option String
  message : String
  progress : ℚ
deriving Repr, DecidableEq

/-- Embeds `process_trip` lines 259-276: the trip is marked `processing` with
`progress = 1.0`, segments are assembled, and when both stream folders yield
no segments the function sets `status = "failed"`, an error message, a
failure message, and returns.  (File-system segment listing is abstracted
into the two segment-list arguments; `_ordered_segments` returns `[]` for an
empty or missing folder.) -/
def process_trip_assembly (front_segments cabin_segments : List Segment)
    (trip : TripState) : TripState :=
  let trip1 : TripState :=
    { trip with status := "processing", progress := 1, message := "Assembling trip segments" }
  if front_segments.isEmpty && cabin_segments.isEmpty then
    { trip1 with
      status := "failed"
      error := some "No video segments found"
      message := "Trip processing failed" }
  else trip1

/-- C4 counterexample: with both stream folders empty the trip is failed with
an error message set, but `progress` is left at `1.0` — the `NoSegments`
early return never writes `progress = 100` (unlike the generic exception
handler at lines 514-521). -/
theorem process_trip_no_segments_progress :
    (process_trip_assembly [] [] ⟨"queued", none, "", 0⟩).status = "failed" ∧
      (process_trip_assembly [] [] ⟨"queued", none, "", 0⟩).error =
        some "No video segments found" ∧
      (process_trip_assembly [] [] ⟨"queued", none, "", 0⟩).progress = 1 ∧
      (process_trip_assembly [] [] ⟨"queued", none, "", 0⟩).progress ≠ 100 := by
  refine ⟨rfl, rfl, rfl, by intro h; rw [show (process_trip_assembly [] []
    ⟨"queued", none, "", 0⟩).progress = 1 from rfl] at h; norm_num at h⟩

/-- C4 (amended): when both stream folders contain no segments, trip analysis
fails with the `NoSegments` outcome: status is set to `failed`, the error
message is set, the status message reports the failure — and `progress`
remains at the pre-assembly value `1.0` (it is not advanced to 100). -/
theorem process_trip_no_segments (trip : TripState) :
    (process_trip_assembly [] [] trip).status = "failed" ∧
      (process_trip_assembly [] [] trip).error = some "No video segments found" ∧
      (process_trip_assembly [] [] trip).message = "Trip processing failed" ∧
      (process_trip_assembly [] [] trip).progress = 1 :=
  ⟨rfl, rfl, rfl, rfl⟩

/-! ## Evaluation engine (`backend/app/eval/matching.py`, `metrics.py`) -/

/-- Embeds `EventRecord` from `eval/schemas.py`. -/
structure EventRecord where
  trip_id : String
  event_type : String
  ts_ms_start : ℤ
  ts_ms_end : ℤ
  stream : String := "unknown"
  scenario : String := "unknown"
  confidence : ℚ := 1
  source_id : String := ""
deriving Repr, DecidableEq

/-- Embeds `MatchResult` from `eval/schemas.py`. -/
structure MatchResult where
  trip_id : String
  event_type : String
  stream : String
  scenario : String
  gt_id : Option String
  pred_id : Option String
  confidence : ℚ
  iou : ℚ
  outcome : String
deriving Repr, DecidableEq

/-- Embeds `_duration`: interval length clamped to at least 1 ms. -/
def _duration (ev : EventRecord) : ℤ := max 1 (ev.ts_ms_end - ev.ts_ms_start)

/-- The (possibly clamped-to-zero) intersection of two intervals. -/
def interMs (a b : EventRecord) : ℤ :=
  max 0 (min a.ts_ms_end b.ts_ms_end - max a.ts_ms_start b.ts_ms_start)

/-- Embeds `temporal_iou` from `matching.py`. -/
def temporal_iou (a b : EventRecord) : ℚ :=
  let inter := interMs a b
  let union := _duration a + _duration b - inter
  if union ≤ 0 then 0 else (inter : ℚ) / (union : ℚ)

/-- Embeds `center_distance_ms`; Python `//` is floor division, hence `Int.fdiv`. -/
def center_distance_ms (a b : EventRecord) : ℤ :=
  |Int.fdiv (a.ts_ms_start + a.ts_ms_end) 2 - Int.fdiv (b.ts_ms_start + b.ts_ms_end) 2|

/-- Embeds `_compatible`: same trip, same type, and streams equal unless either is
`"unknown"`. -/
def _compatible (a b : EventRecord) : Bool :=
  a.trip_id == b.trip_id && a.event_type == b.event_type &&
    (a.stream == "unknown" || b.stream == "unknown" || a.stream == b.stream)

/-- Accumulator of the inner candidate loop of `match_events`
(`best_gt`, `best_score`, `best_iou`; Python starts from `(None, -1.0, 0.0)`). -/
structure BestAcc where
  best_gt : Option EventRecord
  best_score : ℚ
  best_iou : ℚ
deriving Repr, DecidableEq

/-- One iteration of the candidate loop (`for gt in gts`, lines 64-75):
skip used or incompatible or inadmissible candidates, otherwise replace the
best on strictly greater score `iou + (0.1 if close else 0)`. -/
def considerGt (iou_threshold : ℚ) (tolerance_ms : ℤ) (pred : EventRecord)
    (used_gt : List String) (acc : BestAcc) (gt : EventRecord) : BestAcc :=
  if used_gt.contains gt.source_id || !(_compatible gt pred) then acc
  else
    let iou := temporal_iou gt pred
    let close := center_distance_ms gt pred ≤ tolerance_ms
    if iou < iou_threshold ∧ ¬close then acc
    else
      let score := iou + (if close then 0.1 else 0)
      if acc.best_score < score then ⟨some gt, score, iou⟩ else acc

def bestCandidate (iou_threshold : ℚ) (tolerance_ms : ℤ) (pred : EventRecord)
    (gts : List EventRecord) (used_gt : List String) : BestAcc :=
  gts.foldl (considerGt iou_threshold tolerance_ms pred used_gt) ⟨none, -1, 0⟩

/-- Build the `MatchResult` for a true positive (lines 82-94). -/
def tpResult (pred gt : EventRecord) (iou : ℚ) : MatchResult :=
  { trip_id := pred.trip_id, event_type := pred.event_type, stream := pred.stream,
    scenario := pred.scenario, gt_id := some gt.source_id, pred_id := some pred.source_id,
    confidence := pred.confidence, iou := iou, outcome := "tp" }

/-- The `MatchResult` for an unmatched prediction (lines 96-111). -/
def fpResult (pred : EventRecord) : MatchResult :=
  { trip_id := pred.trip_id, event_type := pred.event_type, stream := pred.stream,
    scenario := pred.scenario, gt_id := none, pred_id := some pred.source_id,
    confidence := pred.confidence, iou := 0, outcome := "fp" }

/-- The `MatchResult` for an unmatched ground-truth event (lines 113-128). -/
def fnResult (gt : EventRecord) : MatchResult :=
  { trip_id := gt.trip_id, event_type := gt.event_type, stream := gt.stream,
    scenario := gt.scenario, gt_id := some gt.source_id, pred_id := none,
    confidence := 0, iou := 0, outcome := "fn" }

/-- The greedy prediction loop (`for pred in preds`, lines 59-94), carrying
the used-id sets and the accumulated TP results. -/
def greedyLoop (iou_threshold : ℚ) (tolerance_ms : ℤ) (gts : List EventRecord) :
    List EventRecord → List String → List String → List MatchResult →
      List MatchResult × List String × List String
  | [], used_gt, used_pred, acc => (acc, used_gt, used_pred)
  | pred :: rest, used_gt, used_pred, acc =>
    let b := bestCandidate iou_threshold tolerance_ms pred gts used_gt
    match b.best_gt with
    | none => greedyLoop iou_threshold tolerance_ms gts rest used_gt used_pred acc
    | some gt =>
      greedyLoop iou_threshold tolerance_ms gts rest
        (used_gt ++ [gt.source_id]) (used_pred ++ [pred.source_id])
        (acc ++ [tpResult pred gt b.best_iou])

/-- Sort order for the ground-truth side: Python
`sorted(key=lambda e: (e.ts_ms_start, e.ts_ms_end))` (a stable sort). -/
def gtOrder (a b : EventRecord) : Prop :=
  a.ts_ms_start < b.ts_ms_start ∨
    (a.ts_ms_start = b.ts_ms_start ∧ a.ts_ms_end ≤ b.ts_ms_end)

instance : DecidableRel gtOrder := fun a b =>
  inferInstanceAs (Decidable (_ ∨ _))

/-- Sort order for the prediction side: Python
`sorted(key=lambda e: e.confidence, reverse=True)` (stable, descending). -/
def predOrder (a b : EventRecord) : Prop := b.confidence ≤ a.confidence

instance : DecidableRel predOrder := fun a b =>
  inferInstanceAs (Decidable (_ ≤ _))

/-- Matching inside one `(trip_id, event_type)` group (the body of the
`for key in keys` loop): TP pass, then FP pass over still-unused sorted
predictions, then FN pass over still-unused sorted ground truths. -/
def matchKey (iou_threshold : ℚ) (tolerance_ms : ℤ)
    (gts0 preds0 : List EventRecord) : List MatchResult :=
  let gts := gts0.insertionSort gtOrder
  let preds := preds0.insertionSort predOrder
  let r := greedyLoop iou_threshold tolerance_ms gts preds [] [] []
  r.1 ++ (preds.filter (fun p => !r.2.2.contains p.source_id)).map fpResult ++
    (gts.filter (fun g => !r.2.1.contains g.source_id)).map fnResult

/-- The grouping key `(ev.trip_id, ev.event_type)`. -/
def evKey (ev : EventRecord) : String × String := (ev.trip_id, ev.event_type)

/-- Order on keys: Python's `sorted` over tuples of strings. -/
def keyOrder (a b : String × String) : Prop :=
  a.1 < b.1 ∨ (a.1 = b.1 ∧ a.2 ≤ b.2)

instance : DecidableRel keyOrder := fun a b =>
  inferInstanceAs (Decidable (_ ∨ _))

/-- Embeds `match_events` from `matching.py`: group both sides by
`(trip_id, event_type)`, iterate the sorted key set, and concatenate the
per-key results.  (`defaultdict` grouping preserves input order, modelled by
`filter`.) -/
def match_events (gt_events pred_events : List EventRecord)
    (iou_threshold : ℚ) (tolerance_ms : ℤ) : List MatchResult :=
  let keys := ((gt_events ++ pred_events).map evKey).dedup.insertionSort keyOrder
  keys.flatMap fun k =>
    matchKey iou_threshold tolerance_ms
      (gt_events.filter fun ev => evKey ev == k)
      (pred_events.filter fun ev => evKey ev == k)

/-- Embeds `_safe_div` from `metrics.py`. -/
def _safe_div (a b : ℚ) : ℚ := if b = 0 then 0 else a / b

/-- The result of `metrics_from_matches` (`recall` is quoted because it is a
command keyword in this Lean environment). -/
structure Metrics where
  tp : ℕ
  fp : ℕ
  fn : ℕ
  precision : ℚ
  «recall» : ℚ
  f1 : ℚ
deriving Repr, DecidableEq

/-- Embeds `metrics_from_matches` from `metrics.py` (counts and rounded ratios). -/
def metrics_from_matches («matches» : List MatchResult) : Metrics :=
  let tp := «matches».countP (fun m => m.outcome == "tp")
  let fp := «matches».countP (fun m => m.outcome == "fp")
  let fn := «matches».countP (fun m => m.outcome == "fn")
  let precision := _safe_div tp (tp + fp)
  let rcl := _safe_div tp (tp + fn)
  let f1 := _safe_div (2 * precision * rcl) (precision + rcl)
  { tp := tp, fp := fp, fn := fn,
    precision := roundTo 4 precision, «recall» := roundTo 4 rcl, f1 := roundTo 4 f1 }

theorem interMs_nonneg (a b : EventRecord) : 0 ≤ interMs a b := le_max_left 0 _

theorem one_le_duration (a : EventRecord) : 1 ≤ _duration a := le_max_left 1 _

theorem interMs_le_duration_left (a b : EventRecord) : interMs a b ≤ _duration a := by
  unfold interMs _duration
  rcases le_total (min a.ts_ms_end b.ts_ms_end - max a.ts_ms_start b.ts_ms_start) 0 with h | h
  · rw [max_eq_left h]; omega
  · rw [max_eq_right h]
    have h1 : min a.ts_ms_end b.ts_ms_end ≤ a.ts_ms_end := min_le_left _ _
    have h2 : a.ts_ms_start ≤ max a.ts_ms_start b.ts_ms_start := le_max_left _ _
    have h3 : a.ts_ms_end - a.ts_ms_start ≤ max 1 (a.ts_ms_end - a.ts_ms_start) := le_max_right _ _
    omega

theorem interMs_le_duration_right (a b : EventRecord) : interMs a b ≤ _duration b := by
  unfold interMs _duration
  rcases le_total (min a.ts_ms_end b.ts_ms_end - max a.ts_ms_start b.ts_ms_start) 0 with h | h
  · rw [max_eq_left h]; omega
  · rw [max_eq_right h]
    have h1 : min a.ts_ms_end b.ts_ms_end ≤ b.ts_ms_end := min_le_right _ _
    have h2 : b.ts_ms_start ≤ max a.ts_ms_start b.ts_ms_start := le_max_right _ _
    have h3 : b.ts_ms_end - b.ts_ms_start ≤ max 1 (b.ts_ms_end - b.ts_ms_start) := le_max_right _ _
    omega

theorem unionMs_pos (a b : EventRecord) : 0 < _duration a + _duration b - interMs a b := by
  have h1 := interMs_le_duration_left a b
  have h2 := one_le_duration b
  omega

/-- The zero-guard of `temporal_iou` is never taken: the value is always the
exact ratio `inter / union`. -/
theorem temporal_iou_eq_div (a b : EventRecord) :
    temporal_iou a b =
      (interMs a b : ℚ) / ((_duration a + _duration b - interMs a b : ℤ) : ℚ) := by
  unfold temporal_iou
  rw [if_neg (not_le.mpr (unionMs_pos a b))]

theorem temporal_iou_nonneg (a b : EventRecord) : 0 ≤ temporal_iou a b := by
  rw [temporal_iou_eq_div]
  apply div_nonneg
  · exact_mod_cast interMs_nonneg a b
  · exact_mod_cast le_of_lt (unionMs_pos a b)

theorem temporal_iou_le_one (a b : EventRecord) : temporal_iou a b ≤ 1 := by
  rw [temporal_iou_eq_div]
  have hu : (0:ℚ) < ((_duration a + _duration b - interMs a b : ℤ) : ℚ) := by
    exact_mod_cast unionMs_pos a b
  rw [div_le_one hu]
  have h1 := interMs_le_duration_left a b
  have h2 := interMs_le_duration_right a b
  exact_mod_cast (by omega : interMs a b ≤ _duration a + _duration b - interMs a b)

/-- C10: `temporal_iou` is total and bounded.  For every pair of integer
intervals — degenerate and inverted ones included — the clamped durations
make the union strictly positive (so the division-by-zero guard is never
taken and the value is exactly `inter / union`), the intersection never
exceeds the union, and the result lies in `[0, 1]`. -/
theorem temporal_iou_total_bounded (a b : EventRecord) :
    0 < _duration a + _duration b - interMs a b ∧
      interMs a b ≤ _duration a + _duration b - interMs a b ∧
      temporal_iou a b =
        (interMs a b : ℚ) / ((_duration a + _duration b - interMs a b : ℤ) : ℚ) ∧
      0 ≤ temporal_iou a b ∧ temporal_iou a b ≤ 1 := by
  have h1 := interMs_le_duration_left a b
  have h2 := interMs_le_duration_right a b
  exact ⟨unionMs_pos a b, by omega, temporal_iou_eq_div a b,
    temporal_iou_nonneg a b, temporal_iou_le_one a b⟩

/-- The C2 scenario's ground-truth event: trip `T`, same type, 1000-3000 ms. -/
def c2gt : EventRecord :=
  ⟨"T", "distracted_driving", 1000, 3000, "unknown", "unknown", 1, "g1"⟩

/-- The C2 scenario's prediction: same trip and type, 3100-5000 ms. -/
def c2pred : EventRecord :=
  ⟨"T", "distracted_driving", 3100, 5000, "unknown", "unknown", 9/10, "p1"⟩

/-- C2 counterexample: for GT 1000-3000 and prediction 3100-5000 the centre
distance is `|2000 - 4050| = 2050` ms, not 1050 ms, and therefore matching
with `tolerance_ms = 1200` (at the default `iou_threshold = 0.30`) does NOT
produce a TP — it produces one FP and one FN. -/
theorem tolerance_rescue_counterexample :
    center_distance_ms c2gt c2pred = 2050 ∧
      ¬ center_distance_ms c2gt c2pred = 1050 ∧
      (match_events [c2gt] [c2pred] (3/10) 1200).map (fun m => m.outcome) = ["fp", "fn"] := by
  refine ⟨by decide, by decide, by decide⟩

/-- C2 (amended): the temporal IoU of the pair is 0 and the centre distance
is 2050 ms, so matching (at `iou_threshold = 0.30`) with `tolerance_ms =
2050` produces one TP, while matching with `tolerance_ms = 1200` or
`tolerance_ms = 1000` produces one FP and one FN. -/
theorem tolerance_rescue :
    temporal_iou c2gt c2pred = 0 ∧
      center_distance_ms c2gt c2pred = 2050 ∧
      (match_events [c2gt] [c2pred] (3/10) 2050).map (fun m => m.outcome) = ["tp"] ∧
      (match_events [c2gt] [c2pred] (3/10) 1200).map (fun m => m.outcome) = ["fp", "fn"] ∧
      (match_events [c2gt] [c2pred] (3/10) 1000).map (fun m => m.outcome) = ["fp", "fn"] := by
  refine ⟨by decide, by decide, by decide, by decide, by decide⟩

/-- The C6 counterexample list: three same-trip same-type ground-truth
records with unique source ids; `a` is zero-length (allowed by the data
model's `ts_ms_end ≥ ts_ms_start`), so its self-IoU is 0. -/
def c6list : List EventRecord :=
  [⟨"T", "t", 5000, 5000, "unknown", "unknown", 1, "a"⟩,
   ⟨"T", "t", 4500, 4600, "unknown", "unknown", 1, "b"⟩,
   ⟨"T", "t", 3900, 4000, "unknown", "unknown", 1, "c"⟩]

/-- C6 counterexample: evaluating `c6list` against itself with
`iou_threshold = 0.5 ≤ 1` and `tolerance_ms = 1000 ≥ 0` does NOT yield a
perfect score: the zero-length record's self-IoU is 0, so its prediction
greedily "steals" a nearby ground truth (admissible through the centre
tolerance), a chain of steals follows, and the last prediction is stranded:
`fp = fn = 1` and `precision = 0.6667`. -/
theorem eval_self_identity_counterexample :
    ((c6list.map (fun ev => ev.source_id)).Nodup ∧ (1:ℚ)/2 ≤ 1 ∧ (0:ℤ) ≤ 1000) ∧
      (metrics_from_matches (match_events c6list c6list (1/2) 1000)).fp = 1 ∧
      (metrics_from_matches (match_events c6list c6list (1/2) 1000)).fn = 1 ∧
      ¬ (metrics_from_matches (match_events c6list c6list (1/2) 1000)).precision = 1 := by
  refine ⟨⟨by decide, by norm_num, by norm_num⟩, by decide, by decide, by decide⟩

/-- Two duplicate positive-duration intervals with distinct ids and
compatible streams: the records self-match perfectly, because the greedy
loop's strictly-greater tie-break keeps the first unused same-interval copy
for each prediction.  Duplicate intervals alone therefore do not break
self-identity. -/
def c6dupSame : List EventRecord :=
  [⟨"T", "t", 0, 1000, "unknown", "unknown", 1, "x"⟩,
   ⟨"T", "t", 0, 1000, "unknown", "unknown", 1, "y"⟩]

theorem eval_self_duplicate_intervals_ok :
    (metrics_from_matches (match_events c6dupSame c6dupSame (1/2) 1000)).fp = 0 ∧
      (metrics_from_matches (match_events c6dupSame c6dupSame (1/2) 1000)).fn = 0 ∧
      (metrics_from_matches (match_events c6dupSame c6dupSame (1/2) 1000)).precision = 1 := by
  refine ⟨by decide, by decide, by decide⟩

/-- Stream-incompatible duplicates DO break self-identity: with `front`,
`unknown` and `cabin` streams on the same interval, the highest-confidence
prediction (`unknown`) takes the `front` copy, the next (`cabin`) takes the
`unknown` copy, and the `front` prediction is left facing only the
incompatible `cabin` ground truth: one FP and one FN.  This is why the
amended claim requires stream compatibility on shared intervals rather than
interval distinctness. -/
def c6dupMixed : List EventRecord :=
  [⟨"T", "t", 0, 1000, "front", "unknown", 7/10, "f"⟩,
   ⟨"T", "t", 0, 1000, "unknown", "unknown", 9/10, "u"⟩,
   ⟨"T", "t", 0, 1000, "cabin", "unknown", 8/10, "c"⟩]

theorem eval_self_duplicate_mixed_streams :
    (metrics_from_matches (match_events c6dupMixed c6dupMixed (1/2) 1000)).fp = 1 ∧
      (metrics_from_matches (match_events c6dupMixed c6dupMixed (1/2) 1000)).fn = 1 := by
  refine ⟨by decide, by decide⟩

/-- Two records with the same positive-duration interval have IoU exactly 1
(in particular, a positive-duration record has self-IoU 1). -/
theorem temporal_iou_one_of_eq {y p : EventRecord}
    (h : y.ts_ms_start < y.ts_ms_end)
    (hs : y.ts_ms_start = p.ts_ms_start) (he : y.ts_ms_end = p.ts_ms_end) :
    temporal_iou y p = 1 := by
  have hinter : interMs y p = y.ts_ms_end - y.ts_ms_start := by
    unfold interMs
    rw [← hs, ← he, min_self, max_self, max_eq_right (by omega)]
  have hdy : _duration y = y.ts_ms_end - y.ts_ms_start := by
    unfold _duration
    rw [max_eq_right (by omega)]
  have hdp : _duration p = y.ts_ms_end - y.ts_ms_start := by
    unfold _duration
    rw [← hs, ← he, max_eq_right (by omega)]
  rw [temporal_iou_eq_div, hinter, hdy, hdp]
  have hne : ((y.ts_ms_end - y.ts_ms_start : ℤ) : ℚ) ≠ 0 := by
    exact_mod_cast (by omega : ¬ (y.ts_ms_end - y.ts_ms_start : ℤ) = 0)
  rw [show y.ts_ms_end - y.ts_ms_start + (y.ts_ms_end - y.ts_ms_start) -
    (y.ts_ms_end - y.ts_ms_start) = y.ts_ms_end - y.ts_ms_start by ring]
  exact div_self hne

/-- Two records of positive duration with different intervals have IoU
strictly below 1. -/
theorem temporal_iou_lt_one {a b : EventRecord}
    (ha : a.ts_ms_start < a.ts_ms_end) (hb : b.ts_ms_start < b.ts_ms_end)
    (hne : ¬ (a.ts_ms_start = b.ts_ms_start ∧ a.ts_ms_end = b.ts_ms_end)) :
    temporal_iou a b < 1 := by
  rw [temporal_iou_eq_div]
  have hu : (0:ℤ) < _duration a + _duration b - interMs a b := unionMs_pos a b
  rw [div_lt_one (by exact_mod_cast hu)]
  have key : interMs a b < _duration a + _duration b - interMs a b := by
    have h1 := interMs_le_duration_left a b
    have h2 := interMs_le_duration_right a b
    have hda : _duration a = a.ts_ms_end - a.ts_ms_start := max_eq_right (by omega)
    have hdb : _duration b = b.ts_ms_end - b.ts_ms_start := max_eq_right (by omega)
    by_contra hc
    push_neg at hc
    -- then inter = dur a = dur b, and the intervals coincide
    have hia : interMs a b = _duration a := by omega
    have hib : interMs a b = _duration b := by omega
    have hpos : 0 < interMs a b := by
      have := one_le_duration a; omega
    have hv : interMs a b =
        min a.ts_ms_end b.ts_ms_end - max a.ts_ms_start b.ts_ms_start := by
      unfold interMs at hpos ⊢
      rcases le_total (min a.ts_ms_end b.ts_ms_end - max a.ts_ms_start b.ts_ms_start) 0 with
        h | h
      · rw [max_eq_left h] at hpos ⊢; omega
      · exact max_eq_right h
    have hm1 : min a.ts_ms_end b.ts_ms_end ≤ a.ts_ms_end := min_le_left _ _
    have hm2 : min a.ts_ms_end b.ts_ms_end ≤ b.ts_ms_end := min_le_right _ _
    have hm3 : a.ts_ms_start ≤ max a.ts_ms_start b.ts_ms_start := le_max_left _ _
    have hm4 : b.ts_ms_start ≤ max a.ts_ms_start b.ts_ms_start := le_max_right _ _
    have : a.ts_ms_start = b.ts_ms_start ∧ a.ts_ms_end = b.ts_ms_end := by
      constructor <;> omega
    exact hne this
  exact_mod_cast key

/-- The candidate score used by the greedy matcher:
`iou + (0.1 if close else 0)`. -/
def candScore (tolerance_ms : ℤ) (pred gt : EventRecord) : ℚ :=
  temporal_iou gt pred + (if center_distance_ms gt pred ≤ tolerance_ms then 0.1 else 0)

theorem considerGt_best_score_lt {thr : ℚ} {tol : ℤ} {pred : EventRecord}
    {used : List String} {acc : BestAcc} {y : EventRecord}
    (hy : candScore tol pred y < 1 + 0.1) (hacc : acc.best_score < 1 + 0.1) :
    (considerGt thr tol pred used acc y).best_score < 1 + 0.1 := by
  unfold candScore at hy
  unfold considerGt
  split
  · exact hacc
  · dsimp only
    split
    · exact hacc
    · split
      · rename_i hclose
        rw [if_pos hclose] at hy
        split
        · exact hy
        · exact hacc
      · rename_i hclose
        rw [if_neg hclose] at hy
        split
        · exact hy
        · exact hacc

/-- Every candidate score is at most the maximal `1 + 0.1` (IoU at most 1
plus the closeness bonus of 0.1). -/
theorem candScore_le {tol : ℤ} {pred y : EventRecord} :
    candScore tol pred y ≤ 1 + 0.1 := by
  have h1 := temporal_iou_le_one y pred
  have hb : (if center_distance_ms y pred ≤ tol then (0.1:ℚ) else 0) ≤ 0.1 := by
    split <;> norm_num
  unfold candScore
  linarith

/-- Once the accumulator holds the maximal score, later candidates never
replace it: the update requires a strictly greater score. -/
theorem considerGt_keep {thr : ℚ} {tol : ℤ} {pred : EventRecord}
    {used : List String} {acc : BestAcc} {y : EventRecord}
    (hacc : acc.best_score = 1 + 0.1) :
    considerGt thr tol pred used acc y = acc := by
  have hy : candScore tol pred y ≤ 1 + 0.1 := candScore_le
  unfold candScore at hy
  unfold considerGt
  split
  · rfl
  · dsimp only
    split
    · rfl
    · split
      · rename_i hclose
        rw [if_pos hclose] at hy
        rw [if_neg (by rw [hacc]; exact not_lt.mpr hy)]
      · rename_i hclose
        rw [if_neg hclose] at hy
        rw [if_neg (by rw [hacc]; exact not_lt.mpr hy)]

/-- A candidate whose source id is already used is skipped outright. -/
theorem considerGt_skip {thr : ℚ} {tol : ℤ} {pred : EventRecord}
    {used : List String} {acc : BestAcc} {y : EventRecord}
    (h : used.contains y.source_id = true) :
    considerGt thr tol pred used acc y = acc := by
  unfold considerGt
  rw [h]
  simp

/-- An unused, compatible candidate with the prediction's exact
positive-duration interval is taken with score `1 + 0.1` and IoU 1: the
centres coincide, so the closeness bonus always applies. -/
theorem considerGt_hit {thr : ℚ} {tol : ℤ} (htol : 0 ≤ tol)
    {p y : EventRecord} (hyd : y.ts_ms_start < y.ts_ms_end)
    (hs : y.ts_ms_start = p.ts_ms_start) (he : y.ts_ms_end = p.ts_ms_end)
    (hc : _compatible y p = true)
    {used : List String} (hused : used.contains y.source_id = false)
    {acc : BestAcc} (hacc : acc.best_score < 1 + 0.1) :
    considerGt thr tol p used acc y = ⟨some y, 1 + 0.1, 1⟩ := by
  have hdist : center_distance_ms y p ≤ tol := by
    unfold center_distance_ms
    rw [← hs, ← he]
    simp only [sub_self, abs_zero]
    exact htol
  have hiou : temporal_iou y p = 1 := temporal_iou_one_of_eq hyd hs he
  unfold considerGt
  rw [hused, hc]
  simp only [Bool.false_or, Bool.not_true, Bool.false_eq_true, if_false]
  rw [if_neg (by intro h; exact h.2 hdist)]
  rw [hiou, if_pos hdist, if_pos hacc]

/-- Folding any candidate list over a maximal-score accumulator leaves it
unchanged. -/
theorem foldl_considerGt_frozen {thr : ℚ} {tol : ℤ} {pred : EventRecord}
    {used : List String} :
    ∀ (l : List EventRecord) (acc : BestAcc), acc.best_score = 1 + 0.1 →
      l.foldl (considerGt thr tol pred used) acc = acc := by
  intro l
  induction l with
  | nil => intro acc _; rfl
  | cons y rest ih =>
    intro acc hacc
    simp only [List.foldl_cons, considerGt_keep hacc]
    exact ih _ hacc

/-- A candidate whose interval differs from the prediction's scores strictly
below the maximum (both of positive duration). -/
theorem candScore_lt_of_intv_ne {tol : ℤ} {p y : EventRecord}
    (hy : y.ts_ms_start < y.ts_ms_end) (hp : p.ts_ms_start < p.ts_ms_end)
    (hne : ¬ (y.ts_ms_start = p.ts_ms_start ∧ y.ts_ms_end = p.ts_ms_end)) :
    candScore tol p y < 1 + 0.1 := by
  have hiou : temporal_iou y p < 1 := temporal_iou_lt_one hy hp hne
  have hb : (if center_distance_ms y p ≤ tol then (0.1:ℚ) else 0) ≤ 0.1 := by
    split <;> norm_num
  unfold candScore
  linarith

/-- The candidate loop over a group containing an unused candidate with the
prediction's interval — all candidates of positive duration and compatible
when sharing that interval — selects some such candidate with the maximal
score. -/
theorem foldl_considerGt_hit {thr : ℚ} {tol : ℤ} (htol : 0 ≤ tol)
    {p : EventRecord} (hp : p.ts_ms_start < p.ts_ms_end) {used : List String} :
    ∀ (l : List EventRecord) (acc : BestAcc),
      (∀ y ∈ l, y.ts_ms_start < y.ts_ms_end) →
      (∀ y ∈ l, y.ts_ms_start = p.ts_ms_start → y.ts_ms_end = p.ts_ms_end →
        _compatible y p = true) →
      acc.best_score < 1 + 0.1 →
      (∃ y ∈ l, (y.ts_ms_start = p.ts_ms_start ∧ y.ts_ms_end = p.ts_ms_end) ∧
        used.contains y.source_id = false) →
      ∃ y ∈ l, (y.ts_ms_start = p.ts_ms_start ∧ y.ts_ms_end = p.ts_ms_end) ∧
        used.contains y.source_id = false ∧
        l.foldl (considerGt thr tol p used) acc = ⟨some y, 1 + 0.1, 1⟩ := by
  intro l
  induction l with
  | nil =>
    intro acc _ _ _ hex
    obtain ⟨y, hy, _⟩ := hex
    exact absurd hy (List.not_mem_nil y)
  | cons z rest ih =>
    intro acc hdur hcomp hacc hex
    by_cases hz : (z.ts_ms_start = p.ts_ms_start ∧ z.ts_ms_end = p.ts_ms_end) ∧
        used.contains z.source_id = false
    · have hcz : _compatible z p = true :=
        hcomp z (List.mem_cons_self z rest) hz.1.1 hz.1.2
      have hstep : considerGt thr tol p used acc z = ⟨some z, 1 + 0.1, 1⟩ :=
        considerGt_hit htol (hdur z (List.mem_cons_self z rest)) hz.1.1 hz.1.2
          hcz hz.2 hacc
      refine ⟨z, List.mem_cons_self z rest, hz.1, hz.2, ?_⟩
      rw [List.foldl_cons, hstep]
      exact foldl_considerGt_frozen rest _ rfl
    · have hacc' : (considerGt thr tol p used acc z).best_score < 1 + 0.1 := by
        by_cases hintv : z.ts_ms_start = p.ts_ms_start ∧ z.ts_ms_end = p.ts_ms_end
        · have hcc : used.contains z.source_id = true := by
            cases hcc : used.contains z.source_id
            · exact absurd ⟨hintv, hcc⟩ hz
            · rfl
          rw [considerGt_skip hcc]
          exact hacc
        · exact considerGt_best_score_lt
            (candScore_lt_of_intv_ne (hdur z (List.mem_cons_self z rest)) hp hintv)
            hacc
      obtain ⟨y, hyrest, hyintv, hyused⟩ : ∃ y ∈ rest,
          (y.ts_ms_start = p.ts_ms_start ∧ y.ts_ms_end = p.ts_ms_end) ∧
            used.contains y.source_id = false := by
        obtain ⟨y, hy, hyi, hyu⟩ := hex
        rcases List.mem_cons.mp hy with rfl | hy
        · exact absurd ⟨hyi, hyu⟩ hz
        · exact ⟨y, hy, hyi, hyu⟩
      obtain ⟨y', hy', hi', hu', heq⟩ := ih (considerGt thr tol p used acc z)
        (fun w hw => hdur w (List.mem_cons_of_mem _ hw))
        (fun w hw hs he => hcomp w (List.mem_cons_of_mem _ hw) hs he)
        hacc' ⟨y, hyrest, hyintv, hyused⟩
      refine ⟨y', List.mem_cons_of_mem _ hy', hi', hu', ?_⟩
      rw [List.foldl_cons]
      exact heq

/-- `bestCandidate` on such a group selects some unused ground truth with
the prediction's exact interval, with score `1 + 0.1` and IoU 1. -/
theorem bestCandidate_hit (thr : ℚ) {tol : ℤ} (htol : 0 ≤ tol)
    {p : EventRecord} (hp : p.ts_ms_start < p.ts_ms_end)
    {gts : List EventRecord}
    (hdur : ∀ y ∈ gts, y.ts_ms_start < y.ts_ms_end)
    (hcomp : ∀ y ∈ gts, y.ts_ms_start = p.ts_ms_start →
      y.ts_ms_end = p.ts_ms_end → _compatible y p = true)
    {used : List String}
    (hex : ∃ y ∈ gts, (y.ts_ms_start = p.ts_ms_start ∧ y.ts_ms_end = p.ts_ms_end) ∧
      used.contains y.source_id = false) :
    ∃ y ∈ gts, (y.ts_ms_start = p.ts_ms_start ∧ y.ts_ms_end = p.ts_ms_end) ∧
      used.contains y.source_id = false ∧
      bestCandidate thr tol p gts used = ⟨some y, 1 + 0.1, 1⟩ := by
  unfold bestCandidate
  exact foldl_considerGt_hit htol hp gts ⟨none, -1, 0⟩ hdur hcomp (by norm_num) hex

/-- Helper: `l.contains s = false` exactly when `s` is not a member. -/
theorem contains_eq_false_iff {α : Type} [BEq α] [LawfulBEq α] {l : List α} {s : α} :
    l.contains s = false ↔ s ∉ l := by
  constructor
  · intro h hmem
    have ht : l.contains s = true := List.elem_eq_true_of_mem hmem
    rw [h] at ht
    exact Bool.false_ne_true ht
  · intro hnot
    cases hc : l.contains s
    · rfl
    · exact absurd (List.mem_of_elem_eq_true hc) hnot

/-- The Boolean predicate selecting records with the given interval. -/
def intvP (s e : ℤ) (r : EventRecord) : Bool :=
  r.ts_ms_start == s && r.ts_ms_end == e

/-- Helper: appending a fresh element preserves `Nodup`. -/
theorem nodup_append_singleton {α : Type} {l : List α} {a : α}
    (h : l.Nodup) (ha : a ∉ l) : (l ++ [a]).Nodup := by
  rw [List.nodup_append]
  refine ⟨h, List.nodup_singleton a, ?_⟩
  intro x hx hxa
  rw [List.mem_singleton] at hxa
  exact ha (hxa ▸ hx)

/-- When strictly fewer used records than ground truths carry an interval,
some ground truth with that interval has an unused source id (ids are unique
and the used records are drawn from the ground truths). -/
theorem exists_unused_intv {gts U : List EventRecord} {s e : ℤ}
    (hsub : ∀ u ∈ U, u ∈ gts)
    (hndg : (gts.map (fun a => a.source_id)).Nodup)
    (hlt : U.countP (intvP s e) < gts.countP (intvP s e)) :
    ∃ y ∈ gts, intvP s e y = true ∧
      (U.map (fun a => a.source_id)).contains y.source_id = false := by
  by_contra hcon
  push_neg at hcon
  have hsubset : gts.filter (intvP s e) ⊆ U.filter (intvP s e) := by
    intro y hy
    have hyg : y ∈ gts := List.mem_of_mem_filter hy
    have hyi : intvP s e y = true := List.of_mem_filter hy
    have hcy := hcon y hyg hyi
    have hmemmap : y.source_id ∈ U.map (fun a => a.source_id) := by
      cases hcc : (U.map (fun a => a.source_id)).contains y.source_id
      · exact absurd hcc hcy
      · exact List.mem_of_elem_eq_true hcc
    obtain ⟨u, huU, husid⟩ := List.mem_map.mp hmemmap
    have huy : u = y :=
      List.inj_on_of_nodup_map hndg (hsub u huU) hyg husid
    exact List.mem_filter.mpr ⟨huy ▸ huU, hyi⟩
  have hndA : (gts.filter (intvP s e)).Nodup :=
    List.Nodup.sublist (List.filter_sublist gts) (List.Nodup.of_map _ hndg)
  have hsp := List.subperm_of_subset hndA hsubset
  have hlen := hsp.length_le
  rw [List.countP_eq_length_filter, List.countP_eq_length_filter] at hlt
  omega

/-- When the used records cover every interval's full ground-truth count,
every ground truth's source id is among the used ids. -/
theorem contains_of_countP_eq {gts U : List EventRecord}
    (hsub : ∀ u ∈ U, u ∈ gts)
    (hndU : (U.map (fun a => a.source_id)).Nodup)
    (hcount : ∀ s e : ℤ, U.countP (intvP s e) = gts.countP (intvP s e))
    {y : EventRecord} (hy : y ∈ gts) :
    (U.map (fun a => a.source_id)).contains y.source_id = true := by
  have hBsub : U.filter (intvP y.ts_ms_start y.ts_ms_end) ⊆
      gts.filter (intvP y.ts_ms_start y.ts_ms_end) := by
    intro u hu
    exact List.mem_filter.mpr
      ⟨hsub u (List.mem_of_mem_filter hu), List.of_mem_filter hu⟩
  have hndB : (U.filter (intvP y.ts_ms_start y.ts_ms_end)).Nodup :=
    List.Nodup.sublist (List.filter_sublist U) (List.Nodup.of_map _ hndU)
  have hsp := List.subperm_of_subset hndB hBsub
  have hperm := hsp.perm_of_length_le (by
    rw [← List.countP_eq_length_filter, ← List.countP_eq_length_filter]
    exact le_of_eq (hcount y.ts_ms_start y.ts_ms_end).symm)
  have hyA : y ∈ gts.filter (intvP y.ts_ms_start y.ts_ms_end) :=
    List.mem_filter.mpr ⟨hy, by unfold intvP; simp⟩
  have hyU : y ∈ U :=
    List.mem_of_mem_filter (hperm.mem_iff.mpr hyA)
  exact List.elem_eq_true_of_mem (List.mem_map_of_mem _ hyU)

/-- The greedy prediction loop on a self-evaluation group with
interval-level stream compatibility: every prediction is matched to some
unused ground truth with its exact interval, producing one TP per
prediction, and the used ground truths end up covering every interval's
full count. -/
theorem greedyLoop_compat (thr : ℚ) {tol : ℤ} (htol : 0 ≤ tol)
    {gts : List EventRecord}
    (hdg : ∀ a ∈ gts, a.ts_ms_start < a.ts_ms_end)
    (hndg : (gts.map (fun a => a.source_id)).Nodup) :
    ∀ (preds : List EventRecord) (U : List EventRecord)
      (used_pred : List String) (acc : List MatchResult),
      (∀ q ∈ preds, q.ts_ms_start < q.ts_ms_end) →
      (∀ q ∈ preds, ∀ y ∈ gts, y.ts_ms_start = q.ts_ms_start →
        y.ts_ms_end = q.ts_ms_end → _compatible y q = true) →
      (∀ u ∈ U, u ∈ gts) →
      ((U.map (fun a => a.source_id)).Nodup) →
      (∀ s e : ℤ, U.countP (intvP s e) + preds.countP (intvP s e) =
        gts.countP (intvP s e)) →
      ∃ (T : List MatchResult) (V : List EventRecord),
        greedyLoop thr tol gts preds (U.map (fun a => a.source_id))
            used_pred acc =
          (acc ++ T, V.map (fun a => a.source_id),
            used_pred ++ preds.map (fun a => a.source_id)) ∧
        T.length = preds.length ∧ (∀ m ∈ T, m.outcome = "tp") ∧
        (∀ u ∈ V, u ∈ gts) ∧ ((V.map (fun a => a.source_id)).Nodup) ∧
        (∀ s e : ℤ, V.countP (intvP s e) = gts.countP (intvP s e)) := by
  intro preds
  induction preds with
  | nil =>
    intro U used_pred acc _ _ hsub hndU hcount
    refine ⟨[], U, by simp [greedyLoop], rfl, by simp, hsub, hndU, ?_⟩
    intro s e
    have h := hcount s e
    simpa using h
  | cons p rest ih =>
    intro U used_pred acc hdp hcomp hsub hndU hcount
    have hpint : intvP p.ts_ms_start p.ts_ms_end p = true := by
      unfold intvP
      simp
    have hlt : U.countP (intvP p.ts_ms_start p.ts_ms_end) <
        gts.countP (intvP p.ts_ms_start p.ts_ms_end) := by
      have h := hcount p.ts_ms_start p.ts_ms_end
      rw [List.countP_cons] at h
      simp only [hpint, if_true] at h
      omega
    obtain ⟨y0, hy0g, hy0i, hy0u⟩ := exists_unused_intv hsub hndg hlt
    have hy0s : y0.ts_ms_start = p.ts_ms_start ∧ y0.ts_ms_end = p.ts_ms_end := by
      unfold intvP at hy0i
      simp at hy0i
      exact hy0i
    obtain ⟨y, hyg, hyintv, hyu, hbest⟩ :=
      bestCandidate_hit thr htol (hdp p (List.mem_cons_self p rest)) hdg
        (fun w hw hs he => hcomp p (List.mem_cons_self p rest) w hw hs he)
        ⟨y0, hy0g, hy0s, hy0u⟩
    have hymem : y.source_id ∉ U.map (fun a => a.source_id) :=
      contains_eq_false_iff.mp hyu
    have hndU' : ((U ++ [y]).map (fun a => a.source_id)).Nodup := by
      rw [List.map_append, List.map_cons, List.map_nil]
      exact nodup_append_singleton hndU hymem
    have hsub' : ∀ u ∈ U ++ [y], u ∈ gts := by
      intro u hu
      rcases List.mem_append.mp hu with hu | hu
      · exact hsub u hu
      · rw [List.mem_singleton.mp hu]
        exact hyg
    have hcount' : ∀ s e : ℤ,
        (U ++ [y]).countP (intvP s e) + rest.countP (intvP s e) =
          gts.countP (intvP s e) := by
      intro s e
      have h := hcount s e
      rw [List.countP_cons] at h
      rw [List.countP_append, List.countP_cons, List.countP_nil]
      have hyp : intvP s e y = intvP s e p := by
        unfold intvP
        rw [hyintv.1, hyintv.2]
      rw [hyp]
      by_cases hq : intvP s e p = true
      · simp only [hq, if_true] at h ⊢
        omega
      · rw [Bool.not_eq_true] at hq
        simp only [hq, Bool.false_eq_true, if_false] at h ⊢
        omega
    obtain ⟨T', V, heq, hlen, htp, hsubV, hndV, hcntV⟩ :=
      ih (U ++ [y]) (used_pred ++ [p.source_id]) (acc ++ [tpResult p y 1])
        (fun q hq => hdp q (List.mem_cons_of_mem _ hq))
        (fun q hq w hw hs he => hcomp q (List.mem_cons_of_mem _ hq) w hw hs he)
        hsub' hndU' hcount'
    refine ⟨tpResult p y 1 :: T', V, ?_, ?_, ?_, hsubV, hndV, hcntV⟩
    · simp only [greedyLoop, hbest]
      have hused_eq : U.map (fun a => a.source_id) ++ [y.source_id] =
          (U ++ [y]).map (fun a => a.source_id) := by
        rw [List.map_append, List.map_cons, List.map_nil]
      rw [hused_eq, heq]
      simp [List.append_assoc]
    · simp [hlen]
    · intro m hm
      rcases List.mem_cons.mp hm with rfl | hm
      · rfl
      · exact htp m hm

/-- Matching a positive-duration, unique-id group against itself — any two
records sharing an interval being stream-compatible — yields exactly one TP
per record and nothing else. -/
theorem matchKey_self (thr : ℚ) {tol : ℤ} (htol : 0 ≤ tol)
    (g : List EventRecord)
    (hsid : (g.map (fun a => a.source_id)).Nodup)
    (hdur : ∀ a ∈ g, a.ts_ms_start < a.ts_ms_end)
    (hcomp : ∀ a ∈ g, ∀ b ∈ g, a.ts_ms_start = b.ts_ms_start →
      a.ts_ms_end = b.ts_ms_end → _compatible a b = true) :
    (matchKey thr tol g g).length = g.length ∧
      ∀ m ∈ matchKey thr tol g g, m.outcome = "tp" := by
  have hgts : (g.insertionSort gtOrder).Perm g := List.perm_insertionSort _ g
  have hpreds : (g.insertionSort predOrder).Perm g := List.perm_insertionSort _ g
  have hnd_gts : ((g.insertionSort gtOrder).map (fun a => a.source_id)).Nodup :=
    (hgts.map (fun a => a.source_id)).nodup_iff.mpr hsid
  have hdur_gts : ∀ a ∈ g.insertionSort gtOrder, a.ts_ms_start < a.ts_ms_end :=
    fun a ha => hdur a (hgts.subset ha)
  have hdur_preds : ∀ a ∈ g.insertionSort predOrder, a.ts_ms_start < a.ts_ms_end :=
    fun a ha => hdur a (hpreds.subset ha)
  have hcomp' : ∀ q ∈ g.insertionSort predOrder, ∀ y ∈ g.insertionSort gtOrder,
      y.ts_ms_start = q.ts_ms_start → y.ts_ms_end = q.ts_ms_end →
      _compatible y q = true :=
    fun q hq y hy hs he => hcomp y (hgts.subset hy) q (hpreds.subset hq) hs he
  have hcount0 : ∀ s e : ℤ,
      (([] : List EventRecord)).countP (intvP s e) +
        (g.insertionSort predOrder).countP (intvP s e) =
      (g.insertionSort gtOrder).countP (intvP s e) := by
    intro s e
    have hpg : (g.insertionSort predOrder).Perm (g.insertionSort gtOrder) :=
      hpreds.trans hgts.symm
    rw [hpg.countP_eq]
    simp
  obtain ⟨T, V, heq, hlen, htp, hsubV, hndV, hcntV⟩ :=
    greedyLoop_compat thr htol hdur_gts hnd_gts (g.insertionSort predOrder)
      [] [] [] hdur_preds hcomp'
      (by intro u hu; exact absurd hu (List.not_mem_nil u))
      (by simp) hcount0
  simp only [List.map_nil] at heq
  simp only [matchKey]
  rw [heq]
  have hfp : ((g.insertionSort predOrder).filter
      (fun q => !(([] : List String) ++ (g.insertionSort predOrder).map
        (fun r => r.source_id)).contains q.source_id)) = [] := by
    rw [List.filter_eq_nil_iff]
    intro a ha
    have hc : (([] : List String) ++ (g.insertionSort predOrder).map
        (fun r => r.source_id)).contains a.source_id = true := by
      apply List.elem_eq_true_of_mem
      rw [List.nil_append]
      exact List.mem_map_of_mem _ ha
    rw [hc]
    simp
  have hfn : ((g.insertionSort gtOrder).filter
      (fun q => !(V.map (fun a => a.source_id)).contains q.source_id)) = [] := by
    rw [List.filter_eq_nil_iff]
    intro a ha
    have hc : (V.map (fun a => a.source_id)).contains a.source_id = true :=
      contains_of_countP_eq hsubV hndV hcntV ha
    rw [hc]
    simp
  rw [hfp, hfn]
  simp only [List.map_nil, List.append_nil, List.nil_append]
  constructor
  · rw [hlen, hpreds.length_eq]
  · intro m hm
    exact htp m hm

/-- Metrics of a nonempty all-TP match list: perfect scores, no FP, no FN. -/
theorem metrics_all_tp (M : List MatchResult) (hM : M ≠ [])
    (hall : ∀ m ∈ M, m.outcome = "tp") :
    (metrics_from_matches M).precision = 1 ∧ (metrics_from_matches M).recall = 1 ∧
      (metrics_from_matches M).f1 = 1 ∧ (metrics_from_matches M).fp = 0 ∧
      (metrics_from_matches M).fn = 0 := by
  have htp : M.countP (fun m => m.outcome == "tp") = M.length :=
    List.countP_eq_length.mpr (fun m hm => by rw [hall m hm]; rfl)
  have hfp : M.countP (fun m => m.outcome == "fp") = 0 :=
    List.countP_eq_zero.mpr (fun m hm => by rw [hall m hm]; decide)
  have hfn : M.countP (fun m => m.outcome == "fn") = 0 :=
    List.countP_eq_zero.mpr (fun m hm => by rw [hall m hm]; decide)
  have hlen : 0 < M.length := List.length_pos.mpr hM
  have hlq : ((M.length : ℚ)) ≠ 0 := by
    exact_mod_cast Nat.pos_iff_ne_zero.mp hlen
  have hdiv : _safe_div (M.length : ℚ) ((M.length : ℚ) + (0:ℕ)) = 1 := by
    unfold _safe_div
    rw [show ((M.length : ℚ) + ((0:ℕ):ℚ)) = (M.length : ℚ) by push_cast; ring]
    rw [if_neg hlq]
    exact div_self hlq
  simp only [metrics_from_matches, htp, hfp, hfn]
  rw [hdiv]
  have hone : roundTo 4 1 = 1 := by decide
  have hf1 : _safe_div (2 * 1 * 1) (1 + 1) = 1 := by
    unfold _safe_div
    norm_num
  rw [hf1, hone]
  refine ⟨by trivial, by trivial, by trivial, by trivial, by trivial⟩

/-- C6 (amended): for every nonempty list of ground-truth records with
pairwise distinct source ids, in which every record has positive duration and
any two same-trip same-type records with identical intervals are
stream-compatible (equal streams, or one of them `"unknown"`), evaluating the
list against itself with `iou_threshold ≤ 1` and `tolerance_ms ≥ 0` yields
`precision = recall = f1 = 1` and `fp = fn = 0`.  Duplicate intervals are
allowed; only a stream conflict on a shared interval (or a zero-length
record) can break self-identity. -/
theorem eval_self_identity (l : List EventRecord) (thr : ℚ) (tol : ℤ)
    (hne : l ≠ [])
    (hsid : (l.map (fun a => a.source_id)).Nodup)
    (hdur : ∀ a ∈ l, a.ts_ms_start < a.ts_ms_end)
    (hcompat : ∀ a ∈ l, ∀ b ∈ l, evKey a = evKey b → a.ts_ms_start = b.ts_ms_start →
      a.ts_ms_end = b.ts_ms_end → _compatible a b = true)
    (hthr : thr ≤ 1) (htol : 0 ≤ tol) :
    (metrics_from_matches (match_events l l thr tol)).precision = 1 ∧
      (metrics_from_matches (match_events l l thr tol)).recall = 1 ∧
      (metrics_from_matches (match_events l l thr tol)).f1 = 1 ∧
      (metrics_from_matches (match_events l l thr tol)).fp = 0 ∧
      (metrics_from_matches (match_events l l thr tol)).fn = 0 := by
  have hgroup : ∀ k : String × String,
      ((l.filter (fun ev => evKey ev == k)).length > 0 →
        matchKey thr tol (l.filter (fun ev => evKey ev == k))
          (l.filter (fun ev => evKey ev == k)) ≠ []) ∧
      (∀ m ∈ matchKey thr tol (l.filter (fun ev => evKey ev == k))
          (l.filter (fun ev => evKey ev == k)), m.outcome = "tp") := by
    intro k
    have hsub : (l.filter (fun ev => evKey ev == k)).Sublist l := List.filter_sublist l
    have hsid_g : ((l.filter (fun ev => evKey ev == k)).map
        (fun a => a.source_id)).Nodup :=
      List.Nodup.sublist (hsub.map _) hsid
    have hdur_g : ∀ a ∈ l.filter (fun ev => evKey ev == k),
        a.ts_ms_start < a.ts_ms_end :=
      fun a ha => hdur a (hsub.subset ha)
    have hcomp_g : ∀ a ∈ l.filter (fun ev => evKey ev == k),
        ∀ b ∈ l.filter (fun ev => evKey ev == k),
        a.ts_ms_start = b.ts_ms_start → a.ts_ms_end = b.ts_ms_end →
        _compatible a b = true := by
      intro a ha b hb h1 h2
      have hka : evKey a = k := by
        have := (List.mem_filter.mp ha).2
        exact eq_of_beq this
      have hkb : evKey b = k := by
        have := (List.mem_filter.mp hb).2
        exact eq_of_beq this
      exact hcompat a (hsub.subset ha) b (hsub.subset hb) (hka.trans hkb.symm) h1 h2
    have hmk := matchKey_self thr htol (l.filter (fun ev => evKey ev == k))
      hsid_g hdur_g hcomp_g
    refine ⟨fun hpos => ?_, hmk.2⟩
    intro hnil
    rw [hnil] at hmk
    simp at hmk
    omega
  have halltp : ∀ m ∈ match_events l l thr tol, m.outcome = "tp" := by
    intro m hm
    simp only [match_events] at hm
    obtain ⟨k, _, hmk⟩ := List.mem_flatMap.mp hm
    exact (hgroup k).2 m hmk
  have hnonempty : match_events l l thr tol ≠ [] := by
    obtain ⟨a, ha⟩ := List.exists_mem_of_ne_nil l hne
    intro hnil
    simp only [match_events] at hnil
    rw [List.flatMap_eq_nil_iff] at hnil
    have hkmem : evKey a ∈ ((l ++ l).map evKey).dedup.insertionSort keyOrder := by
      rw [(List.perm_insertionSort keyOrder _).mem_iff, List.mem_dedup]
      exact List.mem_map_of_mem _ (List.mem_append_left _ ha)
    have hnilk := hnil _ hkmem
    have hpos : (l.filter (fun ev => evKey ev == evKey a)).length > 0 := by
      have : a ∈ l.filter (fun ev => evKey ev == evKey a) :=
        List.mem_filter.mpr ⟨ha, by simp⟩
      exact List.length_pos.mpr (List.ne_nil_of_mem this)
    exact ((hgroup (evKey a)).1 hpos) hnilk
  exact metrics_all_tp _ hnonempty halltp

/-- Witness for C6's amended theorem: two records duplicating the same
positive-duration interval (distinct ids, compatible streams) evaluated
against themselves at `iou_threshold = 0.3`, `tolerance_ms = 1200`. -/
theorem eval_self_identity_witness :
    (metrics_from_matches (match_events
        [⟨"T", "t", 0, 1000, "unknown", "unknown", 1, "e1"⟩,
         ⟨"T", "t", 0, 1000, "unknown", "unknown", 1, "e2"⟩]
        [⟨"T", "t", 0, 1000, "unknown", "unknown", 1, "e1"⟩,
         ⟨"T", "t", 0, 1000, "unknown", "unknown", 1, "e2"⟩] (3/10) 1200)).precision = 1 ∧
      (metrics_from_matches (match_events
        [⟨"T", "t", 0, 1000, "unknown", "unknown", 1, "e1"⟩,
         ⟨"T", "t", 0, 1000, "unknown", "unknown", 1, "e2"⟩]
        [⟨"T", "t", 0, 1000, "unknown", "unknown", 1, "e1"⟩,
         ⟨"T", "t", 0, 1000, "unknown", "unknown", 1, "e2"⟩] (3/10) 1200)).fp = 0 :=
  ⟨(eval_self_identity
      [⟨"T", "t", 0, 1000, "unknown", "unknown", 1, "e1"⟩,
       ⟨"T", "t", 0, 1000, "unknown", "unknown", 1, "e2"⟩] (3/10) 1200
      (by decide) (by decide) (by decide) (by decide)
      (by norm_num) (by decide)).1,
    (eval_self_identity
      [⟨"T", "t", 0, 1000, "unknown", "unknown", 1, "e1"⟩,
       ⟨"T", "t", 0, 1000, "unknown", "unknown", 1, "e2"⟩] (3/10) 1200
      (by decide) (by decide) (by decide) (by decide)
      (by norm_num) (by decide)).2.2.2.1⟩

/-! ## Threshold sweep (`metrics.py` lines 42-76) -/

/-- A `{threshold, f1}` tracker (`global_best` / `per_event_best` entries). -/
structure SweepBest where
  threshold : ℚ
  f1 : ℚ
deriving Repr, DecidableEq

/-- One sweep row: the threshold, the overall metrics, and each event type's
re-rounded F1. -/
structure SweepRow where
  threshold : ℚ
  overall : Metrics
  per_event_f1 : List (String × ℚ)
deriving Repr, DecidableEq

structure SweepResult where
  rows : List SweepRow
  global_best : SweepBest
  per_event_best : List (String × SweepBest)
deriving Repr, DecidableEq

/-- Embeds `np.round(np.arange(0.10, 0.96, 0.05), 2).tolist()`:
the 18 thresholds 0.10, 0.15, …, 0.95. -/
def sweepThresholds : List ℚ :=
  (List.range 18).map fun k => (10 + 5 * (k : ℚ)) / 100

/-- Embeds `by_event.get(event_type, ...).get("f1", 0.0)` for one slice of
`sliced_metrics(matches, lambda m: m.event_type)`: the F1 of the rows with
that event type (an absent slice gives `metrics` of no rows, whose F1 is
`0.0`, matching the Python default). -/
def f1ForType (ty : String) («matches» : List MatchResult) : ℚ :=
  (metrics_from_matches («matches».filter (fun m => m.event_type == ty))).f1

/-- The order used by `sorted` on the event-type set. -/
def strOrder (a b : String) : Prop := a ≤ b

instance : DecidableRel strOrder := fun a b =>
  inferInstanceAs (Decidable (_ ≤ _))

/-- The body of `for thr in thresholds` in `threshold_sweep`: filter the
predictions by confidence, re-match, update `global_best` and
`per_event_best` on strictly better F1, and append the row. -/
def sweepStep (gt_events pred_events : List EventRecord) (iou_threshold : ℚ)
    (tolerance_ms : ℤ) (event_types : List String)
    (acc : List SweepRow × SweepBest × List (String × SweepBest)) (thr : ℚ) :
    List SweepRow × SweepBest × List (String × SweepBest) :=
  let filtered := pred_events.filter (fun p => p.confidence ≥ thr)
  let ms := match_events gt_events filtered iou_threshold tolerance_ms
  let overall := metrics_from_matches ms
  (acc.1 ++ [⟨thr, overall, event_types.map (fun ty => (ty, roundTo 4 (f1ForType ty ms)))⟩],
    (if acc.2.1.f1 < overall.f1 then ⟨thr, overall.f1⟩ else acc.2.1),
    acc.2.2.map (fun p =>
      if p.2.f1 < f1ForType p.1 ms then (p.1, ⟨thr, f1ForType p.1 ms⟩) else p))

/-- Embeds `threshold_sweep` from `metrics.py`: sweep the fixed threshold grid,
starting both trackers from `{"threshold": 0.5, "f1": -1.0}`. -/
def threshold_sweep (gt_events pred_events : List EventRecord)
    (iou_threshold : ℚ) (tolerance_ms : ℤ) : SweepResult :=
  let event_types :=
    (((gt_events ++ pred_events).map (fun ev => ev.event_type)).dedup).insertionSort strOrder
  let r := sweepThresholds.foldl
    (sweepStep gt_events pred_events iou_threshold tolerance_ms event_types)
    ([], ⟨1/2, -1⟩, event_types.map (fun ty => (ty, ⟨1/2, -1⟩)))
  ⟨r.1, r.2.1, r.2.2⟩

/-- The overall F1 obtained at one confidence threshold: filter predictions
by `confidence ≥ thr`, re-match, and take the rounded overall F1. -/
def overallF1At (gt_events pred_events : List EventRecord) (iou_threshold : ℚ)
    (tolerance_ms : ℤ) (thr : ℚ) : ℚ :=
  (metrics_from_matches (match_events gt_events
    (pred_events.filter (fun p => p.confidence ≥ thr)) iou_threshold tolerance_ms)).f1

/-- One event type's F1 at one confidence threshold. -/
def typeF1At (ty : String) (gt_events pred_events : List EventRecord)
    (iou_threshold : ℚ) (tolerance_ms : ℤ) (thr : ℚ) : ℚ :=
  f1ForType ty (match_events gt_events
    (pred_events.filter (fun p => p.confidence ≥ thr)) iou_threshold tolerance_ms)

/-- The generic argmax-with-first-tie-break fold underlying both
`global_best` and `per_event_best`. -/
def bestFold (score : ℚ → ℚ) (l : List ℚ) (b : SweepBest) : SweepBest :=
  l.foldl (fun acc t => if acc.f1 < score t then ⟨t, score t⟩ else acc) b

/-- Characterisation of `bestFold` over a strictly increasing list: either
nothing beat the initial tracker, or the result is the first maximiser. -/
theorem bestFold_spec (score : ℚ → ℚ) :
    ∀ (l : List ℚ) (b : SweepBest), List.Pairwise (· < ·) l →
      (bestFold score l b = b ∧ ∀ t ∈ l, score t ≤ b.f1) ∨
      ((bestFold score l b).threshold ∈ l ∧
        score (bestFold score l b).threshold = (bestFold score l b).f1 ∧
        b.f1 < (bestFold score l b).f1 ∧
        (∀ t ∈ l, score t ≤ (bestFold score l b).f1) ∧
        (∀ t ∈ l, t < (bestFold score l b).threshold →
          score t < (bestFold score l b).f1)) := by
  intro l
  induction l with
  | nil =>
    intro b _
    exact Or.inl ⟨rfl, by simp⟩
  | cons t0 rest ih =>
    intro b hpair
    obtain ⟨hlt0, hrest⟩ := List.pairwise_cons.mp hpair
    by_cases hb : b.f1 < score t0
    · -- the head replaces the tracker
      have hstep : bestFold score (t0 :: rest) b = bestFold score rest ⟨t0, score t0⟩ := by
        unfold bestFold
        rw [List.foldl_cons, if_pos hb]
      rcases ih ⟨t0, score t0⟩ hrest with ⟨heq, hle⟩ | ⟨hmem, heq, hlt, hle, hfirst⟩
      · refine Or.inr ?_
        rw [hstep, heq]
        refine ⟨List.mem_cons_self _ _, rfl, hb, ?_, ?_⟩
        · intro t ht
          rcases List.mem_cons.mp ht with rfl | ht
          · exact le_rfl
          · exact hle t ht
        · intro t ht htlt
          rcases List.mem_cons.mp ht with rfl | ht
          · exact absurd htlt (lt_irrefl t)
          · exact absurd htlt (not_lt.mpr (le_of_lt (hlt0 t ht)))
      · refine Or.inr ?_
        rw [hstep]
        refine ⟨List.mem_cons_of_mem _ hmem, heq, lt_trans hb hlt, ?_, ?_⟩
        · intro t ht
          rcases List.mem_cons.mp ht with rfl | ht
          · exact le_of_lt hlt
          · exact hle t ht
        · intro t ht htlt
          rcases List.mem_cons.mp ht with rfl | ht
          · exact hlt
          · exact hfirst t ht htlt
    · -- the head does not replace the tracker
      have hstep : bestFold score (t0 :: rest) b = bestFold score rest b := by
        unfold bestFold
        rw [List.foldl_cons, if_neg hb]
      rcases ih b hrest with ⟨heq, hle⟩ | ⟨hmem, heq, hlt, hle, hfirst⟩
      · refine Or.inl ⟨hstep.trans heq, ?_⟩
        intro t ht
        rcases List.mem_cons.mp ht with rfl | ht
        · exact not_lt.mp hb
        · exact hle t ht
      · refine Or.inr ?_
        rw [hstep]
        refine ⟨List.mem_cons_of_mem _ hmem, heq, hlt, ?_, ?_⟩
        · intro t ht
          rcases List.mem_cons.mp ht with rfl | ht
          · exact le_of_lt (lt_of_le_of_lt (not_lt.mp hb) hlt)
          · exact hle t ht
        · intro t ht htlt
          rcases List.mem_cons.mp ht with rfl | ht
          · exact lt_of_le_of_lt (not_lt.mp hb) hlt
          · exact hfirst t ht htlt

theorem _safe_div_nonneg {a b : ℚ} (ha : 0 ≤ a) (hb : 0 ≤ b) : 0 ≤ _safe_div a b := by
  unfold _safe_div
  split
  · exact le_rfl
  · exact div_nonneg ha hb

/-- The rounded F1 of any match list is non-negative. -/
theorem metrics_f1_nonneg (M : List MatchResult) : 0 ≤ (metrics_from_matches M).f1 := by
  unfold metrics_from_matches
  apply roundTo_nonneg
  have hp : (0:ℚ) ≤ _safe_div (M.countP (fun m => m.outcome == "tp") : ℚ)
      ((M.countP (fun m => m.outcome == "tp") : ℚ) +
        ((M.countP (fun m => m.outcome == "fp") : ℕ) : ℚ)) :=
    _safe_div_nonneg (by positivity) (by positivity)
  have hr : (0:ℚ) ≤ _safe_div (M.countP (fun m => m.outcome == "tp") : ℚ)
      ((M.countP (fun m => m.outcome == "tp") : ℚ) +
        ((M.countP (fun m => m.outcome == "fn") : ℕ) : ℚ)) :=
    _safe_div_nonneg (by positivity) (by positivity)
  exact _safe_div_nonneg (by positivity) (by positivity)

/-- The row appended for threshold `t` (threshold, overall metrics, and the
re-rounded per-type F1 columns). -/
def sweepRowAt (gt_events pred_events : List EventRecord) (iou_threshold : ℚ)
    (tolerance_ms : ℤ) (tys : List String) (t : ℚ) : SweepRow :=
  ⟨t,
    metrics_from_matches (match_events gt_events
      (pred_events.filter (fun p => p.confidence ≥ t)) iou_threshold tolerance_ms),
    tys.map (fun ty =>
      (ty, roundTo 4 (typeF1At ty gt_events pred_events iou_threshold tolerance_ms t)))⟩

/-- Closed form of the sweep fold: rows in grid order, and each tracker is
the `bestFold` of its score function. -/
theorem sweep_fold_eq (gt_events pred_events : List EventRecord)
    (iou_threshold : ℚ) (tolerance_ms : ℤ) (tys : List String) :
    ∀ (l : List ℚ) (r0 : List SweepRow) (g0 : SweepBest)
      (p0 : List (String × SweepBest)),
      l.foldl (sweepStep gt_events pred_events iou_threshold tolerance_ms tys)
        (r0, g0, p0) =
        (r0 ++ l.map (sweepRowAt gt_events pred_events iou_threshold tolerance_ms tys),
          bestFold (overallF1At gt_events pred_events iou_threshold tolerance_ms) l g0,
          p0.map (fun p =>
            (p.1, bestFold (typeF1At p.1 gt_events pred_events iou_threshold tolerance_ms)
              l p.2))) := by
  intro l
  induction l with
  | nil =>
    intro r0 g0 p0
    show (r0, g0, p0) = (r0 ++ [], g0, p0.map fun p => (p.1, p.2))
    simp
  | cons t rest ih =>
    intro r0 g0 p0
    rw [List.foldl_cons]
    rw [show (sweepStep gt_events pred_events iou_threshold tolerance_ms tys
        (r0, g0, p0) t) =
        (r0 ++ [sweepRowAt gt_events pred_events iou_threshold tolerance_ms tys t],
          (if g0.f1 < overallF1At gt_events pred_events iou_threshold tolerance_ms t then
            ⟨t, overallF1At gt_events pred_events iou_threshold tolerance_ms t⟩ else g0),
          p0.map (fun p =>
            if p.2.f1 < typeF1At p.1 gt_events pred_events iou_threshold tolerance_ms t then
              (p.1, ⟨t, typeF1At p.1 gt_events pred_events iou_threshold tolerance_ms t⟩)
            else p)) from rfl]
    rw [ih]
    refine Prod.ext ?_ (Prod.ext ?_ ?_)
    · show (r0 ++ [sweepRowAt gt_events pred_events iou_threshold tolerance_ms tys t]) ++
        rest.map (sweepRowAt gt_events pred_events iou_threshold tolerance_ms tys) =
        r0 ++ (sweepRowAt gt_events pred_events iou_threshold tolerance_ms tys t ::
          rest.map (sweepRowAt gt_events pred_events iou_threshold tolerance_ms tys))
      rw [List.append_assoc, List.singleton_append]
    · show bestFold _ rest _ = bestFold _ (t :: rest) g0
      unfold bestFold
      rw [List.foldl_cons]
    · show (p0.map _).map _ = p0.map _
      rw [List.map_map]
      apply List.map_congr_left
      intro p _
      dsimp only [Function.comp]
      by_cases hc : p.2.f1 < typeF1At p.1 gt_events pred_events iou_threshold tolerance_ms t
      · rw [if_pos hc]
        congr 1
        unfold bestFold
        rw [List.foldl_cons, if_pos hc]
      · rw [if_neg hc]
        congr 1
        unfold bestFold
        rw [List.foldl_cons, if_neg hc]

/-- Rewrites `threshold_sweep` in closed form. -/
theorem threshold_sweep_eq (gt_events pred_events : List EventRecord)
    (iou_threshold : ℚ) (tolerance_ms : ℤ) :
    threshold_sweep gt_events pred_events iou_threshold tolerance_ms =
      ⟨sweepThresholds.map (sweepRowAt gt_events pred_events iou_threshold tolerance_ms
          (((gt_events ++ pred_events).map (fun ev => ev.event_type)).dedup.insertionSort
            strOrder)),
        bestFold (overallF1At gt_events pred_events iou_threshold tolerance_ms)
          sweepThresholds ⟨1/2, -1⟩,
        (((gt_events ++ pred_events).map (fun ev => ev.event_type)).dedup.insertionSort
          strOrder).map (fun ty =>
            (ty, bestFold (typeF1At ty gt_events pred_events iou_threshold tolerance_ms)
              sweepThresholds ⟨1/2, -1⟩))⟩ := by
  show (⟨(sweepThresholds.foldl
      (sweepStep gt_events pred_events iou_threshold tolerance_ms
        (((gt_events ++ pred_events).map (fun ev => ev.event_type)).dedup.insertionSort
          strOrder))
      ([], ⟨1/2, -1⟩,
        ((((gt_events ++ pred_events).map (fun ev => ev.event_type)).dedup.insertionSort
          strOrder).map (fun ty => (ty, ⟨1/2, -1⟩))))).1,
    (sweepThresholds.foldl
      (sweepStep gt_events pred_events iou_threshold tolerance_ms
        (((gt_events ++ pred_events).map (fun ev => ev.event_type)).dedup.insertionSort
          strOrder))
      ([], ⟨1/2, -1⟩,
        ((((gt_events ++ pred_events).map (fun ev => ev.event_type)).dedup.insertionSort
          strOrder).map (fun ty => (ty, ⟨1/2, -1⟩))))).2.1,
    (sweepThresholds.foldl
      (sweepStep gt_events pred_events iou_threshold tolerance_ms
        (((gt_events ++ pred_events).map (fun ev => ev.event_type)).dedup.insertionSort
          strOrder))
      ([], ⟨1/2, -1⟩,
        ((((gt_events ++ pred_events).map (fun ev => ev.event_type)).dedup.insertionSort
          strOrder).map (fun ty => (ty, ⟨1/2, -1⟩))))).2.2⟩ : SweepResult) = _
  rw [sweep_fold_eq]
  dsimp only
  rw [List.nil_append, List.map_map]
  refine congrArg (SweepResult.mk _ _) ?_
  apply List.map_congr_left
  intro ty _
  rfl


theorem sweepThresholds_pairwise : List.Pairwise (fun a b => a < b) sweepThresholds := by
  decide

/-- The tracker fold over the threshold grid, started from
`{"threshold": 0.5, "f1": -1.0}`, returns the first maximiser of any
non-negative score. -/
theorem bestFold_argmax (score : ℚ → ℚ) (hscore : ∀ t, 0 ≤ score t) :
    (bestFold score sweepThresholds ⟨1/2, -1⟩).threshold ∈ sweepThresholds ∧
      (bestFold score sweepThresholds ⟨1/2, -1⟩).f1 =
        score (bestFold score sweepThresholds ⟨1/2, -1⟩).threshold ∧
      (∀ t ∈ sweepThresholds,
        score t ≤ (bestFold score sweepThresholds ⟨1/2, -1⟩).f1) ∧
      (∀ t ∈ sweepThresholds,
        score t = (bestFold score sweepThresholds ⟨1/2, -1⟩).f1 →
        (bestFold score sweepThresholds ⟨1/2, -1⟩).threshold ≤ t) := by
  rcases bestFold_spec score sweepThresholds ⟨1/2, -1⟩ sweepThresholds_pairwise with
    ⟨_, hle⟩ | ⟨hmem, heq, _, hle, hfirst⟩
  · exfalso
    have h01 : (1/10 : ℚ) ∈ sweepThresholds := by decide
    have h2 : score (1/10) ≤ (-1 : ℚ) := hle _ h01
    linarith [hscore (1/10)]
  · refine ⟨hmem, heq.symm, hle, ?_⟩
    intro t ht hteq
    by_contra hcon
    push_neg at hcon
    exact absurd hteq (ne_of_lt (hfirst t ht hcon))

set_option maxRecDepth 8000 in
/-- C8: the threshold sweep evaluates exactly the thresholds
0.10, 0.15, …, 0.95 (inclusive, step 0.05), filtering predictions to those
with `confidence ≥ thr` before re-matching; `global_best` is the threshold
maximising the overall F1 and each `per_event_best` entry the threshold
maximising that type's F1, ties broken by the smallest (first-seen)
threshold. -/
theorem threshold_sweep_spec (gt_events pred_events : List EventRecord)
    (iou_threshold : ℚ) (tolerance_ms : ℤ) :
    sweepThresholds = [0.1, 0.15, 0.2, 0.25, 0.3, 0.35, 0.4, 0.45, 0.5, 0.55,
        0.6, 0.65, 0.7, 0.75, 0.8, 0.85, 0.9, 0.95] ∧
      (threshold_sweep gt_events pred_events iou_threshold tolerance_ms).rows.map
        (fun r => r.threshold) = sweepThresholds ∧
      ((threshold_sweep gt_events pred_events iou_threshold
          tolerance_ms).global_best.threshold ∈ sweepThresholds ∧
        (threshold_sweep gt_events pred_events iou_threshold
          tolerance_ms).global_best.f1 =
          overallF1At gt_events pred_events iou_threshold tolerance_ms
            (threshold_sweep gt_events pred_events iou_threshold
              tolerance_ms).global_best.threshold ∧
        (∀ t ∈ sweepThresholds,
          overallF1At gt_events pred_events iou_threshold tolerance_ms t ≤
            (threshold_sweep gt_events pred_events iou_threshold
              tolerance_ms).global_best.f1) ∧
        (∀ t ∈ sweepThresholds,
          overallF1At gt_events pred_events iou_threshold tolerance_ms t =
            (threshold_sweep gt_events pred_events iou_threshold
              tolerance_ms).global_best.f1 →
          (threshold_sweep gt_events pred_events iou_threshold
            tolerance_ms).global_best.threshold ≤ t)) ∧
      ∀ pr ∈ (threshold_sweep gt_events pred_events iou_threshold
          tolerance_ms).per_event_best,
        pr.2.threshold ∈ sweepThresholds ∧
          pr.2.f1 = typeF1At pr.1 gt_events pred_events iou_threshold tolerance_ms
            pr.2.threshold ∧
          (∀ t ∈ sweepThresholds,
            typeF1At pr.1 gt_events pred_events iou_threshold tolerance_ms t ≤ pr.2.f1) ∧
          (∀ t ∈ sweepThresholds,
            typeF1At pr.1 gt_events pred_events iou_threshold tolerance_ms t = pr.2.f1 →
            pr.2.threshold ≤ t) := by
  refine ⟨by decide, ?_, ?_, ?_⟩
  · rw [threshold_sweep_eq]
    show (sweepThresholds.map (sweepRowAt gt_events pred_events iou_threshold tolerance_ms
        (((gt_events ++ pred_events).map (fun ev => ev.event_type)).dedup.insertionSort
          strOrder))).map (fun r => r.threshold) = sweepThresholds
    rw [List.map_map]
    exact (List.map_congr_left (fun t _ => rfl)).trans (List.map_id _)
  · rw [threshold_sweep_eq]
    exact bestFold_argmax _ (fun t => metrics_f1_nonneg _)
  · intro pr hpr
    rw [threshold_sweep_eq] at hpr
    have hpr2 : pr ∈ (((gt_events ++ pred_events).map
        (fun ev => ev.event_type)).dedup.insertionSort strOrder).map (fun ty =>
          (ty, bestFold (typeF1At ty gt_events pred_events iou_threshold tolerance_ms)
            sweepThresholds ⟨1/2, -1⟩)) := hpr
    obtain ⟨ty, _, rfl⟩ := List.mem_map.mp hpr2
    exact bestFold_argmax _ (fun t => metrics_f1_nonneg _)

/-- Witness for C8 at a concrete one-record input. -/
theorem threshold_sweep_spec_witness :
    (threshold_sweep [⟨"T", "t", 0, 1000, "unknown", "unknown", 1, "e1"⟩]
        [⟨"T", "t", 0, 1000, "unknown", "unknown", 1, "e1"⟩] (3/10)
        1200).global_best.threshold ∈ sweepThresholds ∧
      (threshold_sweep [⟨"T", "t", 0, 1000, "unknown", "unknown", 1, "e1"⟩]
        [⟨"T", "t", 0, 1000, "unknown", "unknown", 1, "e1"⟩] (3/10)
        1200).rows.map (fun r => r.threshold) = sweepThresholds :=
  ⟨(threshold_sweep_spec [⟨"T", "t", 0, 1000, "unknown", "unknown", 1, "e1"⟩]
      [⟨"T", "t", 0, 1000, "unknown", "unknown", 1, "e1"⟩] (3/10) 1200).2.2.1.1,
    (threshold_sweep_spec [⟨"T", "t", 0, 1000, "unknown", "unknown", 1, "e1"⟩]
      [⟨"T", "t", 0, 1000, "unknown", "unknown", 1, "e1"⟩] (3/10) 1200).2.1⟩
